import Mathlib

set_option maxHeartbeats 2000000
set_option maxRecDepth 8000

/-!
# A verification development for the Keep Me Honest writing-analysis engine

Shallow embedding of the engine: the readability analyzer (readability.py),
the writing-quality scanner passes and orchestrator (writing_checker.py),
and the debounce/selection scheduling logic of the editor shell
(keep_me_honest.py).

Modeling conventions:
* Python strings are sequences of code points; text is modeled as `List Char`
  and offsets as `Nat` indices into that list (so `0 <= start` is automatic).
* Python floats are modeled as exact rationals (`ℚ`); `round(x, n)` is modeled
  as exact decimal rounding with ties to even.
* Character classes (`str.split` whitespace, regex word characters, lowering)
  are modeled on their ASCII behavior.
* Fallible arithmetic (division) additionally gets a checked variant returning
  `Option`, mirroring the possibility of `ZeroDivisionError`.
-/

/-- ASCII whitespace recognized by Python `str.split()` and the regex class
for whitespace: space, tab, newline, carriage return, vertical tab, form feed. -/
def isSpaceChar (c : Char) : Bool :=
  c == ' ' || c == '\t' || c == '\n' || c == '\r' || c == '\x0b' || c == '\x0c'

/-- Vowels used by the syllable estimator (readability.py `_count_syllables`):
`aeiouy` on the lowercased text. -/
def isVowel (c : Char) : Bool :=
  c == 'a' || c == 'e' || c == 'i' || c == 'o' || c == 'u' || c == 'y'

/-- Lowercase a text, code point by code point (Python `str.lower()`, ASCII). -/
def lowerL (s : List Char) : List Char := s.map Char.toLower

/-- Python `text[a:b]` for `a ≤ b`. -/
def pySlice (t : List Char) (a b : Nat) : List Char := (t.drop a).take (b - a)

/-- Python `str.split()` with no argument: split on whitespace runs and drop
empty tokens.  The accumulator holds the token currently being read, reversed. -/
def pySplitAux : List Char → List Char → List (List Char)
  | [], acc => if acc = [] then [] else [acc.reverse]
  | c :: rest, acc =>
    if isSpaceChar c then
      if acc = [] then pySplitAux rest [] else acc.reverse :: pySplitAux rest []
    else pySplitAux rest (c :: acc)

/-- Python `text.split()`. -/
def pySplit (t : List Char) : List (List Char) := pySplitAux t []

/-- Python `str.strip()`: remove leading and trailing whitespace. -/
def pyStrip (t : List Char) : List Char :=
  ((t.dropWhile isSpaceChar).reverse.dropWhile isSpaceChar).reverse

/-- Sentence delimiters: the regex class of `[.!?]+` used by
`re.split` in both readability.py and writing_checker.py. -/
def isSentDelim (c : Char) : Bool := c == '.' || c == '!' || c == '?'

/-- Embeds `re.split(r"[.!?]+", text)`: split on maximal runs of sentence delimiters.
State `some cur` means a segment `cur` (reversed) is being accumulated; state
`none` means we are inside a delimiter run (its segment was already emitted). -/
def splitSentAux : List Char → Option (List Char) → List (List Char)
  | [], none => [[]]
  | [], some cur => [cur.reverse]
  | c :: rest, none =>
    if isSentDelim c then splitSentAux rest none
    else splitSentAux rest (some [c])
  | c :: rest, some cur =>
    if isSentDelim c then cur.reverse :: splitSentAux rest none
    else splitSentAux rest (some (c :: cur))

/-- Embeds `re.split(r"[.!?]+", text)`. -/
def splitSent (t : List Char) : List (List Char) := splitSentAux t (some [])

/-- readability.py `_count_sentences`: number of segments with non-blank
content after splitting on `[.!?]+`. -/
def countSentences (t : List Char) : Nat :=
  ((splitSent t).filter (fun s => !(pyStrip s).isEmpty)).length

/-- readability.py `_count_words`: `len(text.split())`. -/
def countWords (t : List Char) : Nat := (pySplit t).length

/-- Vowel-group counter of `_count_syllables`: one count per transition from
non-vowel to vowel, scanning left to right; the flag is "previous was vowel". -/
def syllAux : List Char → Bool → Nat
  | [], _ => 0
  | c :: rest, prev =>
    (if isVowel c && !prev then 1 else 0) + syllAux rest (isVowel c)

/-- readability.py `_count_syllables`: vowel groups of the lowercased text,
minus one if it ends in `e`, floored at 1.  (The subtraction cannot underflow
in Python either: a text ending in `e` has at least one vowel group, so the
truncated `Nat` subtraction is faithful.) -/
def countSyllables (t : List Char) : Nat :=
  let low := lowerL t
  let n := syllAux low false
  let n2 := if low.getLast? = some 'e' then n - 1 else n
  let n3 := if n2 = 0 then 1 else n2
  max 1 n3

/-- Mathematical floor of a rational. -/
def ratFloor (q : ℚ) : Int := ⌊q⌋

/-- Round to the nearest integer, ties to even (the rounding mode of Python
`round`). -/
def rndHalfEven (q : ℚ) : Int :=
  let f := ratFloor q
  let r := q - (f : ℚ)
  if r < 1/2 then f
  else if 1/2 < r then f + 1
  else if f % 2 = 0 then f else f + 1

/-- Python `round(x, n)`, modeled as exact decimal rounding on rationals. -/
def roundTo (n : Nat) (q : ℚ) : ℚ :=
  (rndHalfEven (q * (10 ^ n : ℚ)) : ℚ) / (10 ^ n : ℚ)

/-- The readability metrics record returned by `ReadabilityAnalyzer.analyze`
(readability.py).  Field `endPos`-style renames do not occur here; all source
key names are legal Lean identifiers. -/
structure ReadMetrics where
  sentences : Nat
  words : Nat
  syllables : Nat
  characters : Nat
  flesch_kincaid_grade : ℚ
  flesch_reading_ease : ℚ
  gunning_fog : ℚ
  avg_grade : ℚ
  difficulty : String
  avg_word_length : ℚ
  avg_sentence_length : ℚ
deriving DecidableEq, Repr

/-- readability.py `_empty_analysis`: the all-zero sentinel record. -/
def emptyAnalysis : ReadMetrics :=
  ⟨0, 0, 0, 0, 0, 0, 0, 0, ("N/A"), 0, 0⟩

/-- readability.py `_flesch_kincaid_grade`:
`0.39*(words/sentences) + 11.8*(syllables/words) - 15.59`, floored at 0,
guarded against zero counts. -/
def fleschKincaidGrade (sentences words syllables : Nat) : ℚ :=
  if sentences = 0 || words = 0 then 0
  else
    max 0 ((39/100 : ℚ) * ((words : ℚ) / (sentences : ℚ)) +
      (118/10 : ℚ) * ((syllables : ℚ) / (words : ℚ)) - (1559/100 : ℚ))

/-- readability.py `_flesch_reading_ease`:
`206.835 - 1.015*(words/sentences) - 84.6*(syllables/words)`, clamped to
`[0, 100]`, guarded against zero counts. -/
def fleschReadingEase (sentences words syllables : Nat) : ℚ :=
  if sentences = 0 || words = 0 then 0
  else
    max 0 (min 100 ((206835/1000 : ℚ) - (1015/1000 : ℚ) * ((words : ℚ) / (sentences : ℚ)) -
      (846/10 : ℚ) * ((syllables : ℚ) / (words : ℚ))))

/-- Number of complex words (syllable estimate at least 3) among the
whitespace tokens of the text, as counted inside `_gunning_fog_index`. -/
def complexWordCount (t : List Char) : Nat :=
  ((pySplit t).filter (fun w => decide (3 ≤ countSyllables w))).length

/-- readability.py `_gunning_fog_index`:
`0.4*((words/sentences) + 100*(complex_words/words))`, floored at 0,
guarded against zero counts. -/
def gunningFogIndex (sentences words : Nat) (t : List Char) : ℚ :=
  if sentences = 0 || words = 0 then 0
  else
    max 0 ((4/10 : ℚ) * (((words : ℚ) / (sentences : ℚ)) +
      100 * ((complexWordCount t : ℚ) / (words : ℚ))))

/-- readability.py `_get_difficulty_level`: difficulty label from the
averaged grade.  The `Graduate` band is `(16, float("inf"))`, modeled as
`16 ≤ g`; the final fallthrough also returns `Graduate`. -/
def getDifficultyLevel (g : ℚ) : String :=
  if 0 ≤ g ∧ g < 6 then ("Elementary")
  else if 6 ≤ g ∧ g < 9 then ("Middle School")
  else if 9 ≤ g ∧ g < 13 then ("High School")
  else if 13 ≤ g ∧ g < 16 then ("College")
  else if 16 ≤ g then ("Graduate")
  else ("Graduate")

/-- readability.py `ReadabilityAnalyzer.analyze`.  The local variables of the source (`sentences`, `words`, …) are inlined. -/
def analyze (t : List Char) : ReadMetrics :=
  if t = [] || (pyStrip t).length = 0 then emptyAnalysis
  else if countSentences t = 0 || countWords t = 0 then emptyAnalysis
  else
    ⟨countSentences t, countWords t, countSyllables t, t.length,
      roundTo 1 (fleschKincaidGrade (countSentences t) (countWords t) (countSyllables t)),
      roundTo 1 (fleschReadingEase (countSentences t) (countWords t) (countSyllables t)),
      roundTo 1 (gunningFogIndex (countSentences t) (countWords t) t),
      roundTo 1 ((fleschKincaidGrade (countSentences t) (countWords t) (countSyllables t) +
        gunningFogIndex (countSentences t) (countWords t) t) / 2),
      getDifficultyLevel ((fleschKincaidGrade (countSentences t) (countWords t) (countSyllables t) +
        gunningFogIndex (countSentences t) (countWords t) t) / 2),
      roundTo 2 (if t ≠ [] then (countWords t : ℚ) / (t.length : ℚ) * 100 else 0),
      roundTo 1 (if 0 < countSentences t then (countWords t : ℚ) / (countSentences t : ℚ) else 0)⟩

/-- Checked division: `none` exactly where Python would raise
`ZeroDivisionError`. -/
def divChk (a b : ℚ) : Option ℚ := if b = 0 then none else some (a / b)

/-- Variant of `_flesch_kincaid_grade` with checked division. -/
def fleschKincaidGradeChk (sentences words syllables : Nat) : Option ℚ :=
  if sentences = 0 || words = 0 then some 0
  else do
    let q1 ← divChk (words : ℚ) (sentences : ℚ)
    let q2 ← divChk (syllables : ℚ) (words : ℚ)
    some (max 0 ((39/100 : ℚ) * q1 + (118/10 : ℚ) * q2 - (1559/100 : ℚ)))

/-- Variant of `_flesch_reading_ease` with checked division. -/
def fleschReadingEaseChk (sentences words syllables : Nat) : Option ℚ :=
  if sentences = 0 || words = 0 then some 0
  else do
    let q1 ← divChk (words : ℚ) (sentences : ℚ)
    let q2 ← divChk (syllables : ℚ) (words : ℚ)
    some (max 0 (min 100 ((206835/1000 : ℚ) - (1015/1000 : ℚ) * q1 - (846/10 : ℚ) * q2)))

/-- Variant of `_gunning_fog_index` with checked division. -/
def gunningFogIndexChk (sentences words : Nat) (t : List Char) : Option ℚ :=
  if sentences = 0 || words = 0 then some 0
  else do
    let q1 ← divChk (words : ℚ) (sentences : ℚ)
    let q2 ← divChk (complexWordCount t : ℚ) (words : ℚ)
    some (max 0 ((4/10 : ℚ) * (q1 + 100 * q2)))

/-- Variant of `analyze` with every division checked: returns `none` if any ratio in the
body would divide by zero. -/
def analyzeChk (t : List Char) : Option ReadMetrics :=
  if t = [] || (pyStrip t).length = 0 then some emptyAnalysis
  else if countSentences t = 0 || countWords t = 0 then some emptyAnalysis
  else
    (fleschKincaidGradeChk (countSentences t) (countWords t) (countSyllables t)).bind fun fk =>
    (fleschReadingEaseChk (countSentences t) (countWords t) (countSyllables t)).bind fun ease =>
    (gunningFogIndexChk (countSentences t) (countWords t) t).bind fun fog =>
    (divChk (fk + fog) 2).bind fun avgGrade =>
    (if t ≠ [] then divChk (countWords t : ℚ) (t.length : ℚ) else some 0).bind fun awl =>
    (if 0 < countSentences t then divChk (countWords t : ℚ) (countSentences t : ℚ) else some 0).bind
      fun asl =>
    some ⟨countSentences t, countWords t, countSyllables t, t.length,
      roundTo 1 fk, roundTo 1 ease, roundTo 1 fog, roundTo 1 avgGrade,
      getDifficultyLevel avgGrade, roundTo 2 (awl * 100), roundTo 1 asl⟩

/-!
## Writing checker (writing_checker.py)

The regex passes are embedded as direct matchers.  A matcher (`PM`) takes the
text and a start position and returns the end position of the match there, if
any (`re` semantics: alternatives tried left to right; `+` is greedy, and
since the word, whitespace and delimiter classes used here are pairwise
disjoint and every literal starts with a word character, greedy runs never
need to backtrack, so each run is the maximal run).
-/

/-- Regex word characters (`\w`), ASCII: letters, digits, underscore. -/
def isWordChar (c : Char) : Bool := c.isAlphanum || c == '_'

/-- Is the character at index `i` a word character (out of range: no)? -/
def wordAt (s : List Char) (i : Nat) : Bool := isWordChar (s.getD i ' ')

/-- Regex `\b`: a word boundary at position `i` (word-ness differs between the
character before `i` and the character at `i`). -/
def atBoundary (s : List Char) (i : Nat) : Bool :=
  (if i = 0 then false else wordAt s (i - 1)) != wordAt s i

/-- A positional matcher: text, start position ↦ end position of a match. -/
abbrev PM : Type := List Char → Nat → Option Nat

/-- Zero-width `\b` check. -/
def matchBoundary : PM := fun s i => if atBoundary s i then some i else none

/-- Case-insensitive literal (a regex literal under `re.IGNORECASE`). -/
def matchLitCI (w : List Char) : PM := fun s i =>
  if lowerL (pySlice s i (i + w.length)) = lowerL w then some (i + w.length) else none

/-- Greedy `+` over a character class, e.g. `\s+` or `\w+`.  Followed only by
patterns starting with a character of a disjoint class, so the maximal run is
the unique possibility. -/
def matchPlus (p : Char → Bool) : PM := fun s i =>
  let n := ((s.drop i).takeWhile p).length
  if n = 0 then none else some (i + n)

/-- Pattern `\w+suf\b` (suffix matched case-insensitively): the maximal word-character
run at `i`, provided it is longer than `suf` and ends with `suf`.  (Greedy
`\w+` backtracks until the literal suffix and the final `\b` fit; the `\b`
forces the match to end exactly at the end of the run.) -/
def matchWordRunEnd (suf : List Char) : PM := fun s i =>
  let n := ((s.drop i).takeWhile isWordChar).length
  if suf.length < n ∧ lowerL (((s.drop i).take n).drop (n - suf.length)) = lowerL suf
  then some (i + n) else none

/-- Sequencing of matchers. -/
def pseq (m1 m2 : PM) : PM := fun s i => (m1 s i).bind (m2 s)

/-- Regex alternation of case-insensitive literals followed by a continuation
`k`, with backtracking: alternatives are tried in order, and an alternative
whose continuation fails is abandoned in favor of the next one. -/
def tryAlts : List (List Char) → PM → PM
  | [], _ => fun _ _ => none
  | w :: ws, k => fun s i =>
    match (matchLitCI w s i).bind (k s) with
    | some e => some e
    | none => tryAlts ws k s i

/-- Embeds the `re.finditer` scan: try a match at each position left to right; on a match
continue at its end (never before the next position), else advance by one.
Fuel is the number of remaining probe positions; `s.length + 1` suffices
because every step advances the position by at least one. -/
def finditerAux (m : PM) (s : List Char) : Nat → Nat → List (Nat × Nat)
  | 0, _ => []
  | fuel + 1, i =>
    if i ≤ s.length then
      match m s i with
      | some e => (i, e) :: finditerAux m s fuel (max e (i + 1))
      | none => finditerAux m s fuel (i + 1)
    else []

/-- All matches of `m` over `s`, as `(start, end)` spans. -/
def finditer (m : PM) (s : List Char) : List (Nat × Nat) :=
  finditerAux m s (s.length + 1) 0

/-- A detected writing problem (writing_checker.py `WritingIssue`).  The
source attribute `end` is a Lean keyword and is embedded as `endPos`. -/
structure WritingIssue where
  issue_type : String
  start : Nat
  endPos : Nat
  text : List Char
  suggestion : String
deriving DecidableEq, Repr

/-- The apostrophe character (kept out of literals for hygiene). -/
def apos : Char := Char.ofNat 39

/-- The apostrophe as a one-character string. -/
def aposS : String := String.mk [apos]

/-- Source list `WritingChecker.PASSIVE_PATTERNS`, first alternation list
(`am|is|are|was|were|be|been|being`), in source order. -/
def passiveVerbsA : List (List Char) :=
  [("am").toList, ("is").toList, ("are").toList, ("was").toList,
   ("were").toList, ("be").toList, ("been").toList, ("being").toList]

/-- Second pattern alternation list (`was|were|is|are|am|been`). -/
def passiveVerbsB : List (List Char) :=
  [("was").toList, ("were").toList, ("is").toList, ("are").toList,
   ("am").toList, ("been").toList]

/-- Pattern `\b(am|is|are|was|were|be|been|being)\s+\w+ed\b`. -/
def matchPassive1 : PM :=
  pseq matchBoundary
    (tryAlts passiveVerbsA (pseq (matchPlus isSpaceChar) (matchWordRunEnd (("ed").toList))))

/-- Pattern `\bby\s+\w+\s+(was|were|is|are|am|been)\b`. -/
def matchPassive2 : PM :=
  pseq matchBoundary
    (pseq (matchLitCI (("by").toList))
      (pseq (matchPlus isSpaceChar)
        (pseq (matchPlus isWordChar)
          (pseq (matchPlus isSpaceChar) (tryAlts passiveVerbsB matchBoundary)))))

/-- Embeds `WritingChecker._check_passive_voice`: all matches of the first pattern,
then all matches of the second, each as a `passive_voice` issue. -/
def checkPassiveVoice (t : List Char) : List WritingIssue :=
  (finditer matchPassive1 t ++ finditer matchPassive2 t).map fun p =>
    ⟨("passive_voice"), p.1, p.2, pySlice t p.1 p.2, ("Consider using active voice instead")⟩

/-- Source list `WritingChecker.WEAK_WORDS`, in source order. -/
def WEAK_WORDS : List (List Char) :=
  [("very").toList, ("really").toList, ("just").toList, ("quite").toList,
   ("rather").toList, ("somewhat").toList, ("a bit").toList, ("kind of").toList,
   ("sort of").toList, ("in my opinion").toList, ("basically").toList,
   ("literally").toList, ("actually").toList, ("obviously").toList,
   ("clearly").toList]

/-- Pattern `\b<literal>\b`, the shape of each weak-word / jargon / phrase pattern
(`re.escape` keeps the listed words literal; embedded spaces match a single
space character). -/
def wordPattern (w : List Char) : PM :=
  pseq matchBoundary (pseq (matchLitCI w) matchBoundary)

/-- Embeds `WritingChecker._check_weak_words`. -/
def checkWeakWords (t : List Char) : List WritingIssue :=
  (WEAK_WORDS.map fun w =>
    (finditer (wordPattern w) t).map fun p =>
      ⟨("weak_words"), p.1, p.2, pySlice t p.1 p.2,
        ("Remove \"") ++ String.mk w ++ ("\" or replace with stronger wording")⟩).flatten

/-- Body of `WritingChecker._check_long_sentences`: walk the segments,
advancing the running position by `len(sentence) + 1` per segment (the `+ 1`
assumes a single delimiter character between segments). -/
def longGo : List (List Char) → Nat → List WritingIssue
  | [], _ => []
  | sent :: rest, pos =>
    (if 20 < (pySplit sent).length then
      [⟨("long_sentences"), pos, pos + sent.length, pyStrip sent,
        ("Sentence is ") ++ toString (pySplit sent).length ++ (" words. Consider breaking it up.")⟩]
     else []) ++ longGo rest (pos + sent.length + 1)

/-- Embeds `WritingChecker._check_long_sentences`. -/
def checkLongSentences (t : List Char) : List WritingIssue :=
  longGo (splitSent t) 0

/-- Source map `WritingChecker.JARGON` word → plain alternative, in source (insertion)
order. -/
def JARGON : List (List Char × String) :=
  [(("utilize").toList, ("use")), (("leverage").toList, ("use")),
   (("synergy").toList, ("teamwork")), (("paradigm").toList, ("model")),
   (("methodology").toList, ("method")), (("facilitate").toList, ("help")),
   (("implement").toList, ("do/start")), (("optimize").toList, ("improve")),
   (("strategize").toList, ("plan")), (("incentivize").toList, ("encourage"))]

/-- Embeds `WritingChecker._check_jargon`. -/
def checkJargon (t : List Char) : List WritingIssue :=
  (JARGON.map fun pr =>
    (finditer (wordPattern pr.1) t).map fun p =>
      ⟨("jargon"), p.1, p.2, pySlice t p.1 p.2,
        ("Use \"") ++ pr.2 ++ ("\" instead")⟩).flatten

/-- Allowlist of `_check_adjectives_adverbs` (words not flagged). -/
def ADV_EXCLUDE : List (List Char) :=
  [("only").toList, ("family").toList, ("really").toList, ("daily").toList]

/-- Pattern `\b\w+ly\b`. -/
def matchAdverb : PM := pseq matchBoundary (matchWordRunEnd (("ly").toList))

/-- Embeds `WritingChecker._check_adjectives_adverbs`: `-ly` words outside the
allowlist. -/
def checkAdjectivesAdverbs (t : List Char) : List WritingIssue :=
  ((finditer matchAdverb t).filter (fun p => decide (lowerL (pySlice t p.1 p.2) ∉ ADV_EXCLUDE))).map
    fun p => ⟨("adjectives_adverbs"), p.1, p.2, pySlice t p.1 p.2,
      ("Consider removing or replacing this adverb")⟩

/-- The `alternatives` map of `_check_simple_alternatives`, in source order. -/
def ALTERNATIVES : List (List Char × String) :=
  [(("at this point in time").toList, ("now")),
   (("in the event that").toList, ("if")),
   (("due to the fact that").toList, ("because")),
   (("in order to").toList, ("to")),
   (("for the purpose of").toList, ("to"))]

/-- Embeds `WritingChecker._check_simple_alternatives`. -/
def checkSimpleAlternatives (t : List Char) : List WritingIssue :=
  (ALTERNATIVES.map fun pr =>
    (finditer (wordPattern pr.1) t).map fun p =>
      ⟨("simple_alternatives"), p.1, p.2, pySlice t p.1 p.2,
        ("Replace with \"") ++ pr.2 ++ ("\"")⟩).flatten

/-- Pattern `\baffect\s+\w+\s+effect\b`. -/
def matchAffectEffect : PM :=
  pseq matchBoundary
    (pseq (matchLitCI (("affect").toList))
      (pseq (matchPlus isSpaceChar)
        (pseq (matchPlus isWordChar)
          (pseq (matchPlus isSpaceChar)
            (pseq (matchLitCI (("effect").toList)) matchBoundary)))))

/-- Pattern `\beffect\s+\w+\s+affect\b`. -/
def matchEffectAffect : PM :=
  pseq matchBoundary
    (pseq (matchLitCI (("effect").toList))
      (pseq (matchPlus isSpaceChar)
        (pseq (matchPlus isWordChar)
          (pseq (matchPlus isSpaceChar)
            (pseq (matchLitCI (("affect").toList)) matchBoundary)))))

/-- Pattern `\bits\s+` (no trailing `\b`; the match includes the whitespace
run). -/
def matchIts : PM :=
  pseq matchBoundary (pseq (matchLitCI (("its").toList)) (matchPlus isSpaceChar))

/-- The contraction literal (i, t, apostrophe, s). -/
def itAposS : List Char := ['i', 't', apos, 's']

/-- Pattern for the contraction literal (with the word boundary in front)
followed by `\s+\w+\s+\w+(?!ing)`.  The trailing negative lookahead is
a no-op: the greedy `\w+` always consumes the whole word-character run first,
after which the next character is a non-word character (or the end), which
cannot begin the literal `ing` — so the lookahead never rejects. -/
def matchItsAp : PM :=
  pseq matchBoundary
    (pseq (matchLitCI itAposS)
      (pseq (matchPlus isSpaceChar)
        (pseq (matchPlus isWordChar)
          (pseq (matchPlus isSpaceChar) (matchPlus isWordChar)))))

/-- Pattern `\bthere\s+`. -/
def matchThere : PM :=
  pseq matchBoundary (pseq (matchLitCI (("there").toList)) (matchPlus isSpaceChar))

/-- Source map `WritingChecker.CONFUSED_SYNONYMS`, flattened in source (insertion and
per-pair) order: each heuristic pattern with its suggestion. -/
def CONFUSED_PATTERNS : List (PM × String) :=
  [(matchAffectEffect,
    ("Usually: \"affect\" (verb) = influence, \"effect\" (noun) = result")),
   (matchEffectAffect,
    ("Usually: \"effect\" (noun) = result, \"affect\" (verb) = influence")),
   (matchIts, ("Did you mean \"it") ++ aposS ++ ("s\" (it is)?")),
   (matchItsAp, ("Did you mean \"its\" (possessive)?")),
   (matchThere, ("Did you mean \"their\" or \"they") ++ aposS ++ ("re\"?"))]

/-- Embeds `WritingChecker._check_confused_synonyms`. -/
def checkConfusedSynonyms (t : List Char) : List WritingIssue :=
  (CONFUSED_PATTERNS.map fun pr =>
    (finditer pr.1 t).map fun p =>
      ⟨("confused_synonyms"), p.1, p.2, pySlice t p.1 p.2, pr.2⟩).flatten

/-- Does the needle occur (as a contiguous block) at position `p`? -/
def matchesAt (hay needle : List Char) (p : Nat) : Bool :=
  decide ((hay.drop p).take needle.length = needle)

/-- Scan for the first occurrence of the needle from position `p` on, with
fuel bounding the number of probes. -/
def strFindAux (hay needle : List Char) : Nat → Nat → Option Nat
  | 0, _ => none
  | fuel + 1, p => if matchesAt hay needle p then some p else strFindAux hay needle fuel (p + 1)

/-- Python `hay.find(needle)`: index of the first occurrence, `none` for the
value -1 of the source. -/
def strFind (hay needle : List Char) : Option Nat :=
  strFindAux hay needle (hay.length + 1) 0

/-- Adjacent pairs of a list (`words[i], words[i+1]` for
`i in range(len(words) - 1)`). -/
def repPairs {α : Type} : List α → List (α × α)
  | a :: b :: rest => (a, b) :: repPairs (b :: rest)
  | _ => []

/-- Embeds `WritingChecker._check_repeated_words`: for each adjacent pair of
case-insensitively equal tokens, an issue located at the first
case-insensitive occurrence of the first token, spanning
`len(words[i] + " " + words[i+1])` characters from there.  (`find` cannot
actually return `-1` here, but the source guards on it, hence `Option`.) -/
def checkRepeatedWords (t : List Char) : List WritingIssue :=
  (repPairs (pySplit t)).filterMap fun pr =>
    if lowerL pr.1 = lowerL pr.2 then
      match strFind (lowerL t) (lowerL pr.1) with
      | some pos =>
        some ⟨("repeated_words"), pos, pos + (pr.1.length + 1 + pr.2.length),
          pr.1 ++ [' '] ++ pr.2, ("Remove the repeated word")⟩
      | none => none
    else none

/-- Source list `WritingChecker.CINNAMON_WORDS`, the default registry contents. -/
def CINNAMON_WORDS : List (List Char) :=
  [("really").toList, ("very").toList, ("just").toList, ("nice").toList,
   ("good").toList, ("bad").toList, ("thing").toList, ("stuff").toList]

/-- Embeds `WritingChecker._check_cinnamon_words`: the running `count` in the
suggestion is the 1-based index of the match among the matches of this word. -/
def checkCinnamonWords (registry : List (List Char)) (t : List Char) : List WritingIssue :=
  (registry.map fun w =>
    ((finditer (wordPattern w) t).enum).map fun pr =>
      ⟨("cinnamon_words"), pr.2.1, pr.2.2, pySlice t pr.2.1 pr.2.2,
        ("Overused word (used ") ++ toString (pr.1 + 1) ++ (" times)")⟩).flatten

/-- Source mapping `WritingChecker.enabled_checks`: one flag per pass, default all true. -/
structure CheckConfig where
  passive_voice : Bool
  weak_words : Bool
  long_sentences : Bool
  jargon : Bool
  adjectives_adverbs : Bool
  simple_alternatives : Bool
  confused_synonyms : Bool
  repeated_words : Bool
  cinnamon_words : Bool
deriving DecidableEq, Repr

/-- The default configuration of a fresh `WritingChecker`. -/
def defaultConfig : CheckConfig :=
  ⟨true, true, true, true, true, true, true, true, true⟩

/-- The concatenation of the issues of the enabled passes, in the fixed pass order
of `check_text` (the list before sorting). -/
def allIssues (cfg : CheckConfig) (registry : List (List Char)) (t : List Char) :
    List WritingIssue :=
  (if cfg.passive_voice then checkPassiveVoice t else []) ++
  (if cfg.weak_words then checkWeakWords t else []) ++
  (if cfg.long_sentences then checkLongSentences t else []) ++
  (if cfg.jargon then checkJargon t else []) ++
  (if cfg.adjectives_adverbs then checkAdjectivesAdverbs t else []) ++
  (if cfg.simple_alternatives then checkSimpleAlternatives t else []) ++
  (if cfg.confused_synonyms then checkConfusedSynonyms t else []) ++
  (if cfg.repeated_words then checkRepeatedWords t else []) ++
  (if cfg.cinnamon_words then checkCinnamonWords registry t else [])

/-- Comparison key of `issues.sort(key=lambda x: x.start)`. -/
def issueLE (a b : WritingIssue) : Prop := a.start ≤ b.start

instance : DecidableRel issueLE := fun a b => Nat.decLe a.start b.start

instance : IsTotal WritingIssue issueLE := ⟨fun a b => Nat.le_total a.start b.start⟩

instance : IsTrans WritingIssue issueLE := ⟨fun _ _ _ => Nat.le_trans⟩

/-- Embeds `WritingChecker.check_text`: run the enabled passes, stable-sort the
issues by `start` (Python `list.sort` is stable; a stable sort under a total
preorder has a unique result, realized here by insertion sort), and pair with
the readability analysis. -/
def checkText (cfg : CheckConfig) (registry : List (List Char)) (t : List Char) :
    List WritingIssue × ReadMetrics :=
  (List.insertionSort issueLE (allIssues cfg registry t), analyze t)

/-- Variant of `check_text` with the readability part checked for division by zero. -/
def checkTextChk (cfg : CheckConfig) (registry : List (List Char)) (t : List Char) :
    Option (List WritingIssue × ReadMetrics) :=
  (analyzeChk t).map fun r => (List.insertionSort issueLE (allIssues cfg registry t), r)

/-!
## Helper lemmas: stripping and splitting degenerate text
-/

theorem pySplitAux_nil_of_all_space :
    ∀ t : List Char, (∀ c ∈ t, isSpaceChar c = true) → pySplitAux t [] = [] := by
  intro t
  induction t with
  | nil => intro _; rfl
  | cons c rest ih =>
    intro h
    have hc : isSpaceChar c = true := h c (List.mem_cons_self c rest)
    simp only [pySplitAux, hc, if_true, if_pos rfl]
    exact ih fun d hd => h d (List.mem_cons_of_mem c hd)

theorem countWords_eq_zero_of_all_space (t : List Char)
    (h : ∀ c ∈ t, isSpaceChar c = true) : countWords t = 0 := by
  unfold countWords pySplit
  rw [pySplitAux_nil_of_all_space t h]
  rfl

theorem pyStrip_nil_of_all_space (t : List Char)
    (h : ∀ c ∈ t, isSpaceChar c = true) : pyStrip t = [] := by
  unfold pyStrip
  rw [List.dropWhile_eq_nil_iff.mpr fun c hc => h c hc]
  rfl

theorem all_space_of_pyStrip_nil (t : List Char) (h : pyStrip t = []) :
    ∀ c ∈ t, isSpaceChar c = true := by
  unfold pyStrip at h
  have h1 : (((t.dropWhile isSpaceChar).reverse).dropWhile isSpaceChar) = [] := by
    have := congrArg List.reverse h
    simpa using this
  have h2 : ∀ c ∈ (t.dropWhile isSpaceChar).reverse, isSpaceChar c = true :=
    List.dropWhile_eq_nil_iff.mp h1
  have h3 : ∀ c ∈ t.dropWhile isSpaceChar, isSpaceChar c = true := by
    intro c hc
    exact h2 c (List.mem_reverse.mpr hc)
  intro c hc
  rw [← List.takeWhile_append_dropWhile (p := isSpaceChar) (l := t)] at hc
  rcases List.mem_append.mp hc with h4 | h4
  · exact List.mem_takeWhile_imp h4
  · exact h3 c h4

/-!
## Claim theorems on the readability analyzer
-/

/-- C3: for empty, whitespace-only, or degenerate text (zero sentences or
zero words), `ReadabilityAnalyzer.analyze` returns the record with every
numeric field 0 and difficulty `"N/A"`, as a normal return value. -/
theorem analyze_degenerate_returns_empty_sentinel
    (t : List Char)
    (h : t = [] ∨ (∀ c ∈ t, isSpaceChar c = true) ∨
         countSentences t = 0 ∨ countWords t = 0) :
    analyze t = ⟨0, 0, 0, 0, 0, 0, 0, 0, ("N/A"), 0, 0⟩ := by
  have hempty : emptyAnalysis = ⟨0, 0, 0, 0, 0, 0, 0, 0, ("N/A"), 0, 0⟩ := rfl
  unfold analyze
  split
  · exact hempty
  · next hcond =>
    have hne : ¬(t = [] ∨ (pyStrip t).length = 0) := by
      intro hor
      apply hcond
      rcases hor with h1 | h1
      · simp [h1]
      · simp [h1]
    rcases h with h1 | h1 | h1 | h1
    · exact absurd (Or.inl h1) hne
    · exact absurd (Or.inr (by rw [pyStrip_nil_of_all_space t h1]; rfl)) hne
    · rw [if_pos (by simp [h1])]
      exact hempty
    · rw [if_pos (by simp [h1])]
      exact hempty

/-- C3 witness: the sentinel on `""`, on `"   "`, and on `"..."` (zero
sentences). -/
theorem analyze_degenerate_returns_empty_sentinel_witness :
    analyze (("").toList) = ⟨0, 0, 0, 0, 0, 0, 0, 0, ("N/A"), 0, 0⟩ ∧
    analyze (("   ").toList) = ⟨0, 0, 0, 0, 0, 0, 0, 0, ("N/A"), 0, 0⟩ ∧
    analyze (("...").toList) = ⟨0, 0, 0, 0, 0, 0, 0, 0, ("N/A"), 0, 0⟩ :=
  ⟨analyze_degenerate_returns_empty_sentinel _ (Or.inl (by decide)),
   analyze_degenerate_returns_empty_sentinel _ (Or.inr (Or.inl (by decide))),
   analyze_degenerate_returns_empty_sentinel _ (Or.inr (Or.inr (Or.inl (by decide))))⟩

/-- Rounding an exact integer is the identity. -/
theorem rndHalfEven_intCast (n : ℤ) : rndHalfEven (n : ℚ) = n := by
  unfold rndHalfEven ratFloor
  rw [Int.floor_intCast]
  rw [if_pos (by norm_num)]

/-- Rounding via `roundTo` fixes rationals that are exact multiples of `10 ^ (-k)`. -/
theorem roundTo_int (k : Nat) (q : ℚ) (n : ℤ) (h : q * 10 ^ k = (n : ℚ)) :
    roundTo k q = q := by
  unfold roundTo
  rw [h, rndHalfEven_intCast, ← h]
  rw [mul_div_cancel_right₀ q (by positivity : (10 : ℚ) ^ k ≠ 0)]

/-- C8: on `"The cat sat."`, `analyze` reports 1 sentence, 3 words,
3 syllables, no complex word, Flesch-Kincaid grade 0 (the raw formula value
`0.39*(3/1) + 11.8*(3/3) - 15.59` is negative and clamped), and Gunning Fog
`1.2 = 0.4 * (3/1 + 100 * 0/3)`. -/
theorem readability_scenario_the_cat_sat :
    analyze (("The cat sat.").toList) =
      ⟨1, 3, 3, 12, 0, 100, 6/5, 3/5, ("Elementary"), 25, 3⟩ ∧
    complexWordCount (("The cat sat.").toList) = 0 ∧
    fleschKincaidGrade 1 3 3 = 0 ∧
    (39/100 : ℚ) * (3/1) + (118/10 : ℚ) * (3/3) - (1559/100 : ℚ) < 0 ∧
    gunningFogIndex 1 3 (("The cat sat.").toList) =
      (4/10 : ℚ) * (3/1 + 100 * (0/3)) := by
  have hsent : countSentences (("The cat sat.").toList) = 1 := by decide
  have hword : countWords (("The cat sat.").toList) = 3 := by decide
  have hsyll : countSyllables (("The cat sat.").toList) = 3 := by decide
  have hcplx : complexWordCount (("The cat sat.").toList) = 0 := by decide
  have hfk : fleschKincaidGrade 1 3 3 = 0 := by
    unfold fleschKincaidGrade
    rw [if_neg (by decide)]
    rw [max_eq_left (by push_cast; norm_num)]
  have hease : fleschReadingEase 1 3 3 = 100 := by
    unfold fleschReadingEase
    rw [if_neg (by decide)]
    rw [min_eq_left (by push_cast; norm_num)]
    rw [max_eq_right (by norm_num)]
  have hfog : gunningFogIndex 1 3 (("The cat sat.").toList) = 6/5 := by
    unfold gunningFogIndex
    rw [if_neg (by decide), hcplx]
    rw [max_eq_right (by push_cast; norm_num)]
    push_cast
    norm_num
  refine ⟨?_, hcplx, hfk, by norm_num, ?_⟩
  · unfold analyze
    rw [if_neg (by decide), if_neg (by decide), hsent, hword, hsyll]
    simp only [ReadMetrics.mk.injEq]
    refine ⟨trivial, trivial, trivial, by decide, ?_, ?_, ?_, ?_, ?_, ?_, ?_⟩
    · rw [hfk]
      rw [roundTo_int 1 0 0 (by norm_num)]
    · rw [hease]
      rw [roundTo_int 1 100 1000 (by norm_num)]
    · rw [hfog]
      rw [roundTo_int 1 (6/5) 12 (by norm_num)]
    · rw [hfk, hfog]
      rw [(by norm_num : ((0 : ℚ) + 6/5) / 2 = 3/5)]
      rw [roundTo_int 1 (3/5) 6 (by norm_num)]
    · rw [hfk, hfog]
      rw [(by norm_num : ((0 : ℚ) + 6/5) / 2 = 3/5)]
      unfold getDifficultyLevel
      rw [if_pos (by norm_num)]
    · rw [if_pos (by decide)]
      rw [(by decide : (("The cat sat.").toList).length = 12)]
      rw [(by push_cast; norm_num : (((3 : ℕ) : ℚ)) / (((12 : ℕ) : ℚ)) * 100 = 25)]
      rw [roundTo_int 2 25 2500 (by norm_num)]
    · rw [if_pos (by decide)]
      rw [(by push_cast; norm_num : (((3 : ℕ) : ℚ)) / (((1 : ℕ) : ℚ)) = 3)]
      rw [roundTo_int 1 3 30 (by norm_num)]
  · rw [hfog]
    norm_num

/-- C10: for non-degenerate text, the `avg_word_length` field is the number
of words per 100 characters (`words / len(text) * 100`, rounded to 2
places), not characters per word. -/
theorem avg_word_length_is_words_per_100_chars
    (t : List Char) (hs : countSentences t ≠ 0) (hw : countWords t ≠ 0) :
    (analyze t).avg_word_length =
      roundTo 2 ((countWords t : ℚ) / (t.length : ℚ) * 100) := by
  have ht : t ≠ [] := by
    intro h
    exact hw (by rw [h]; rfl)
  have hstrip : (pyStrip t).length ≠ 0 := by
    intro h
    exact hw (countWords_eq_zero_of_all_space t
      (all_space_of_pyStrip_nil t (List.length_eq_zero.mp h)))
  unfold analyze
  rw [if_neg (by simp [ht, hstrip]), if_neg (by simp [hs, hw])]
  show roundTo 2 (if t ≠ [] then (countWords t : ℚ) / (t.length : ℚ) * 100 else 0) = _
  rw [if_pos ht]

/-- C10 witness: on `"The cat sat."` (1 sentence, 3 words, 12 characters),
the field equals `round(3/12*100, 2) = 25`. -/
theorem avg_word_length_is_words_per_100_chars_witness :
    (analyze (("The cat sat.").toList)).avg_word_length =
      roundTo 2 ((countWords (("The cat sat.").toList) : ℚ) /
        ((("The cat sat.").toList).length : ℚ) * 100) :=
  avg_word_length_is_words_per_100_chars _ (by decide) (by decide)

/-!
## Claim C4: totality / no division by zero
-/

theorem fleschKincaidGradeChk_eq (s w y : Nat) :
    fleschKincaidGradeChk s w y = some (fleschKincaidGrade s w y) := by
  unfold fleschKincaidGradeChk fleschKincaidGrade
  split
  · rfl
  · next h =>
    have hs : (s : ℚ) ≠ 0 := by
      refine Nat.cast_ne_zero.mpr fun h0 => h ?_
      simp [h0]
    have hw : (w : ℚ) ≠ 0 := by
      refine Nat.cast_ne_zero.mpr fun h0 => h ?_
      simp [h0]
    simp [divChk, hs, hw]

theorem fleschReadingEaseChk_eq (s w y : Nat) :
    fleschReadingEaseChk s w y = some (fleschReadingEase s w y) := by
  unfold fleschReadingEaseChk fleschReadingEase
  split
  · rfl
  · next h =>
    have hs : (s : ℚ) ≠ 0 := by
      refine Nat.cast_ne_zero.mpr fun h0 => h ?_
      simp [h0]
    have hw : (w : ℚ) ≠ 0 := by
      refine Nat.cast_ne_zero.mpr fun h0 => h ?_
      simp [h0]
    simp [divChk, hs, hw]

theorem gunningFogIndexChk_eq (s w : Nat) (t : List Char) :
    gunningFogIndexChk s w t = some (gunningFogIndex s w t) := by
  unfold gunningFogIndexChk gunningFogIndex
  split
  · rfl
  · next h =>
    have hs : (s : ℚ) ≠ 0 := by
      refine Nat.cast_ne_zero.mpr fun h0 => h ?_
      simp [h0]
    have hw : (w : ℚ) ≠ 0 := by
      refine Nat.cast_ne_zero.mpr fun h0 => h ?_
      simp [h0]
    simp [divChk, hs, hw]

theorem analyzeChk_eq (t : List Char) : analyzeChk t = some (analyze t) := by
  unfold analyzeChk analyze
  split
  · rfl
  · next hcond =>
    split
    · rfl
    · next h =>
      have ht : t ≠ [] := by
        intro h0
        exact hcond (by simp [h0])
      have hs : ((countSentences t : ℚ)) ≠ 0 := by
        refine Nat.cast_ne_zero.mpr fun h0 => h ?_
        simp [h0]
      have hw : ((countWords t : ℚ)) ≠ 0 := by
        refine Nat.cast_ne_zero.mpr fun h0 => h ?_
        simp [h0]
      have hlen : ((t.length : ℚ)) ≠ 0 :=
        Nat.cast_ne_zero.mpr fun h0 => ht (List.length_eq_zero.mp h0)
      have hposs : 0 < countSentences t := by
        refine Nat.pos_of_ne_zero fun h0 => h ?_
        simp [h0]
      have h2 : (2 : ℚ) ≠ 0 := by norm_num
      rw [fleschKincaidGradeChk_eq, fleschReadingEaseChk_eq, gunningFogIndexChk_eq]
      simp [divChk, ht, hposs, hs, hw, hlen, h2]

/-- C4: `check_text` and `analyze` are total and raise nothing: the checked
variants (in which every division is guarded) always succeed and agree with
the unchecked functions — every ratio is gated behind the zero-sentences /
zero-words (and empty-text) checks. -/
theorem check_text_and_analyze_never_raise
    (cfg : CheckConfig) (registry : List (List Char)) (t : List Char) :
    analyzeChk t = some (analyze t) ∧
    checkTextChk cfg registry t = some (checkText cfg registry t) := by
  refine ⟨analyzeChk_eq t, ?_⟩
  unfold checkTextChk checkText
  rw [analyzeChk_eq t]
  rfl

/-!
## Claim C1: check_text output ordering (stable sort by start)
-/

theorem filter_start_orderedInsert (s : Nat) (x : WritingIssue) (l : List WritingIssue) :
    (List.orderedInsert issueLE x l).filter (fun w => w.start == s) =
      if x.start == s then x :: l.filter (fun w => w.start == s)
      else l.filter (fun w => w.start == s) := by
  induction l with
  | nil =>
    by_cases hx : (x.start == s) = true
    · simp [List.orderedInsert, List.filter, hx]
    · simp [List.orderedInsert, List.filter, hx]
  | cons b l ih =>
    simp only [List.orderedInsert]
    by_cases hxb : issueLE x b
    · rw [if_pos hxb]
      by_cases hx : (x.start == s) = true
      · simp [List.filter, hx]
      · simp [List.filter, hx]
    · rw [if_neg hxb]
      have hlt : b.start < x.start := Nat.lt_of_not_le hxb
      by_cases hx : (x.start == s) = true
      · have hbs : (b.start == s) = false := by
          refine beq_eq_false_iff_ne.mpr fun hb => ?_
          have hxs : x.start = s := beq_iff_eq.mp hx
          omega
        simp [List.filter, hbs, ih, hx]
      · simp [List.filter, ih, hx]

theorem filter_start_insertionSort (s : Nat) (l : List WritingIssue) :
    (List.insertionSort issueLE l).filter (fun w => w.start == s) =
      l.filter (fun w => w.start == s) := by
  induction l with
  | nil => rfl
  | cons x l ih =>
    simp only [List.insertionSort]
    rw [filter_start_orderedInsert]
    by_cases hx : (x.start == s) = true
    · rw [if_pos hx, ih]
      simp [List.filter, hx]
    · rw [if_neg hx, ih]
      simp [List.filter, hx]

/-- C1: for every configuration and text, the issue list of `check_text` is
sorted non-decreasing by `start`, and for each start value the issues with
that start appear exactly as in the pass-ordered concatenation `allIssues`
(passive_voice, weak_words, long_sentences, jargon, adjectives_adverbs,
simple_alternatives, confused_synonyms, repeated_words, cinnamon_words):
the sort is stable, so earlier passes come first among equal starts. -/
theorem check_text_issues_sorted_and_stable
    (cfg : CheckConfig) (registry : List (List Char)) (t : List Char) :
    List.Sorted issueLE (checkText cfg registry t).1 ∧
    ∀ s : Nat,
      (checkText cfg registry t).1.filter (fun w => w.start == s) =
        (allIssues cfg registry t).filter (fun w => w.start == s) := by
  constructor
  · exact List.sorted_insertionSort issueLE (allIssues cfg registry t)
  · intro s
    exact filter_start_insertionSort s (allIssues cfg registry t)

/-- C9: on `"This is very very good."` with the default configuration, the
`check_text` issue list contains exactly two `weak_words` issues, spanning
precisely the two occurrences of `very` (offsets 8–12 and 13–17), exactly two
`cinnamon_words` issues with those same spans, and hence four issues for
those two word occurrences — overlap across pass types is not deduplicated. -/
theorem scenario_very_very_overlap :
    (((checkText defaultConfig CINNAMON_WORDS (("This is very very good.").toList)).1.filter
        (fun w => w.issue_type == ("weak_words"))).map (fun w => (w.start, w.endPos))) =
      [(8, 12), (13, 17)] ∧
    (((checkText defaultConfig CINNAMON_WORDS (("This is very very good.").toList)).1.filter
        (fun w => w.issue_type == ("cinnamon_words") &&
          ((w.start == 8 && w.endPos == 12) || (w.start == 13 && w.endPos == 17)))).map
        (fun w => (w.start, w.endPos))) = [(8, 12), (13, 17)] ∧
    ((checkText defaultConfig CINNAMON_WORDS (("This is very very good.").toList)).1.filter
        (fun w => (w.issue_type == ("weak_words") || w.issue_type == ("cinnamon_words")) &&
          ((w.start == 8 && w.endPos == 12) || (w.start == 13 && w.endPos == 17)))).length = 4 ∧
    pySlice (("This is very very good.").toList) 8 12 = ("very").toList ∧
    pySlice (("This is very very good.").toList) 13 17 = ("very").toList := by
  refine ⟨?_, ?_, ?_, ?_, ?_⟩ <;> decide

/-!
## Claim C7: debounce scheduler and selection readability (keep_me_honest.py)

The relevant `WordProcessor` state and the two notification handlers are
embedded as a state-transition model.  The timer (`QTimer`, 1000 ms interval)
is `some remaining` when armed; `timer.stop(); timer.start()` re-arms it to
the full interval.  The dock label set by `set_selection_readability` is
modeled by its information content.  `WordProcessor.__init__` never assigns
`self.readability` (only `self.writing_checker` exists), so the attribute
lookup `self.readability.analyze(...)` at keep_me_honest.py line 145 raises
`AttributeError`; the selection handler is therefore embedded as a fallible
function returning `Except`.
-/

/-- Content of the selection-readability dock label. -/
inductive SelLabel where
  /-- Label `"(Select text to analyze)"` — shown when there is no selection. -/
  | prompt : SelLabel
  /-- Label `"✓ No text"` — compact rendering of a zero-word analysis. -/
  | noText : SelLabel
  /-- Label `"✓ <difficulty> (Grade <avg_grade>) | <words> words | Flesch: <ease>"`. -/
  | compactOf (m : ReadMetrics) : SelLabel
deriving DecidableEq

/-- readability.py `format_analysis_compact`, by information content. -/
def formatAnalysisCompactL (m : ReadMetrics) : SelLabel :=
  if m.words = 0 then SelLabel.noText else SelLabel.compactOf m

/-- The `WordProcessor` state consulted by the two handlers:
`writing_checker_visible`, the debounce `check_timer` (`some r` = armed with
`r` ms remaining), the current selection text (`[]` = no selection), and the
selection-readability dock label. -/
structure AppState where
  writingCheckerVisible : Bool
  checkTimer : Option Nat
  selection : List Char
  selReadability : SelLabel
deriving DecidableEq

/-- Embeds `WordProcessor.schedule_writing_check` (the `textChanged` handler): if
the checker is visible, `check_timer.stop(); check_timer.start()` — i.e.
re-arm to the full 1000 ms interval.  There is no selection check. -/
def scheduleWritingCheck (st : AppState) : AppState :=
  if st.writingCheckerVisible then
    ⟨st.writingCheckerVisible, some 1000, st.selection, st.selReadability⟩
  else st

/-- A Python exception surfaced by an embedded handler. -/
inductive PyErr where
  /-- AttributeError: `WordProcessor` has no attribute `readability`. -/
  | attributeError : PyErr
deriving DecidableEq

/-- Embeds `WordProcessor.update_selection_readability` (the `selectionChanged`
handler).  When the checker is not visible it returns immediately; with no
selection it resets the placeholder label.  With the checker visible and a
non-empty selection the body evaluates `self.readability.analyze(...)`
(line 145), but `WordProcessor` never assigns `readability`, so the attribute
lookup raises `AttributeError` before any label is produced — no state is
changed on that path.  The timer is never touched on any path. -/
def updateSelectionReadability (st : AppState) : Except PyErr AppState :=
  if st.writingCheckerVisible then
    if st.selection ≠ [] then
      Except.error PyErr.attributeError
    else
      Except.ok ⟨st.writingCheckerVisible, st.checkTimer, st.selection, SelLabel.prompt⟩
  else Except.ok st

/-- C7 counterexample: in a reachable state with the checker visible, a
non-empty selection, and the quiescence timer mid-countdown (200 ms left), a
document-change notification DOES re-arm the timer to the full 1000 ms —
contradicting the claim that change notifications do not re-arm the timer
while a selection is active. -/
theorem selection_does_not_pause_debounce :
    (scheduleWritingCheck ⟨true, some 200, [' '], SelLabel.prompt⟩).checkTimer = some 1000 ∧
    (⟨true, some 200, [' '], SelLabel.prompt⟩ : AppState).selection ≠ [] ∧
    some 1000 ≠ some 200 := by
  refine ⟨rfl, ?_, ?_⟩ <;> decide

/-- C7 (amended): while the checker is visible, every document-change
notification re-arms the quiescence timer to the full 1000 ms interval
regardless of any active selection.  Selection-change notifications never
start, stop or re-arm the timer and never trigger a full rescan: when the
checker is hidden the handler is a no-op; when it is visible with no
selection it only resets the placeholder label; and when it is visible with
a non-empty selection it raises `AttributeError` at the
`self.readability.analyze(...)` lookup (never assigned on `WordProcessor`),
so not even the lightweight selection-readability label is produced. -/
theorem schedule_rearms_selection_never_rescans (st : AppState) :
    (st.writingCheckerVisible = true →
      (scheduleWritingCheck st).checkTimer = some 1000) ∧
    (st.writingCheckerVisible = false → scheduleWritingCheck st = st) ∧
    (∀ st2, updateSelectionReadability st = Except.ok st2 →
      st2.checkTimer = st.checkTimer ∧
      st2.writingCheckerVisible = st.writingCheckerVisible ∧
      st2.selection = st.selection) ∧
    (st.writingCheckerVisible = true → st.selection ≠ [] →
      updateSelectionReadability st = Except.error PyErr.attributeError) ∧
    (st.writingCheckerVisible = true → st.selection = [] →
      updateSelectionReadability st =
        Except.ok ⟨st.writingCheckerVisible, st.checkTimer, st.selection, SelLabel.prompt⟩) ∧
    (st.writingCheckerVisible = false → updateSelectionReadability st = Except.ok st) := by
  unfold scheduleWritingCheck updateSelectionReadability
  by_cases hv : st.writingCheckerVisible = true
  · by_cases hsel : st.selection = []
    · simp [hv, hsel]
    · simp [hv, hsel]
  · have hv2 : st.writingCheckerVisible = false := by
      revert hv
      cases st.writingCheckerVisible <;> simp
    simp [hv2]

/-- C7 witness for the amended claim: with the checker visible, a document
change with selection `"a"` re-arms to 1000 ms; a selection change with that
selection raises `AttributeError`; and a selection change with no selection
leaves the mid-countdown timer untouched and only resets the label. -/
theorem schedule_rearms_selection_never_rescans_witness :
    (scheduleWritingCheck ⟨true, none, ['a'], SelLabel.prompt⟩).checkTimer = some 1000 ∧
    updateSelectionReadability ⟨true, none, ['a'], SelLabel.prompt⟩ =
      Except.error PyErr.attributeError ∧
    updateSelectionReadability ⟨true, some 200, [], SelLabel.noText⟩ =
      Except.ok ⟨true, some 200, [], SelLabel.prompt⟩ := by
  have h1 := schedule_rearms_selection_never_rescans ⟨true, none, ['a'], SelLabel.prompt⟩
  have h2 := schedule_rearms_selection_never_rescans ⟨true, some 200, [], SelLabel.noText⟩
  exact ⟨h1.1 rfl, h1.2.2.2.1 rfl (by decide), h2.2.2.2.2.1 rfl rfl⟩

/-!
## Claim C5: the long_sentences pass

`_check_long_sentences` advances its running position by `len(sentence) + 1`
per segment, which equals the true extent only when every delimiter run has
length exactly 1.  `segsWithPos` annotates each segment with the accumulated
position the pass assigns it.
-/

/-- The segments paired with the running positions `_check_long_sentences`
assigns them (`pos += len(sentence) + 1`). -/
def segsWithPos : List (List Char) → Nat → List (List Char × Nat)
  | [], _ => []
  | s :: rest, pos => (s, pos) :: segsWithPos rest (pos + (s.length + 1))

/-- The issue `_check_long_sentences` builds for a flagged segment at its
accumulated position. -/
def mkLongIssue (pr : List Char × Nat) : WritingIssue :=
  ⟨("long_sentences"), pr.2, pr.2 + pr.1.length, pyStrip pr.1,
    ("Sentence is ") ++ toString (pySplit pr.1).length ++ (" words. Consider breaking it up.")⟩

/-- No two adjacent sentence delimiters: every `[.!?]+` run has length 1. -/
def noAdjDelims : List Char → Bool
  | [] => true
  | [_] => true
  | a :: b :: rest => (!(isSentDelim a && isSentDelim b)) && noAdjDelims (b :: rest)

theorem longGo_eq_filterMap (segs : List (List Char)) (pos : Nat) :
    longGo segs pos = (segsWithPos segs pos).filterMap fun pr =>
      if 20 < (pySplit pr.1).length then some (mkLongIssue pr) else none := by
  induction segs generalizing pos with
  | nil => rfl
  | cons s rest ih =>
    simp only [longGo, segsWithPos, List.filterMap_cons]
    by_cases h : 20 < (pySplit s).length
    · rw [if_pos (by simpa using h), if_pos h, ih]
      simp [mkLongIssue, Nat.add_assoc]
    · rw [if_neg (by simpa using h), if_neg h, ih]
      simp [Nat.add_assoc]

theorem segsWithPos_shift (l : List (List Char)) :
    ∀ n, segsWithPos l n = (segsWithPos l 0).map fun pr => (pr.1, pr.2 + n) := by
  induction l with
  | nil => intro n; rfl
  | cons s rest ih =>
    intro n
    simp only [segsWithPos, List.map_cons]
    rw [ih (n + (s.length + 1)), ih (0 + (s.length + 1)), List.map_map]
    refine congrArg₂ _ (by simp) ?_
    refine List.map_congr_left fun pr _ => ?_
    simp [Function.comp]
    omega

theorem pySlice_append_shift (l r : List Char) (a b : Nat) :
    pySlice (l ++ r) (l.length + a) (l.length + b) = pySlice r a b := by
  unfold pySlice
  have h1 : (l ++ r).drop (l.length + a) = r.drop a := by
    rw [← List.drop_drop, List.drop_left]
  rw [h1]
  congr 1
  omega

theorem noAdjDelims_tail (c : Char) (rest : List Char)
    (h : noAdjDelims (c :: rest) = true) : noAdjDelims rest = true := by
  cases rest with
  | nil => rfl
  | cons d r =>
    simp only [noAdjDelims, Bool.and_eq_true] at h
    exact h.2

theorem splitSentAux_none_eq_some_nil (rest : List Char)
    (h : rest = [] ∨ ∃ d r2, rest = d :: r2 ∧ isSentDelim d = false) :
    splitSentAux rest none = splitSentAux rest (some []) := by
  rcases h with h | ⟨d, r2, rfl, hd⟩
  · subst h
    simp [splitSentAux]
  · simp [splitSentAux, hd]

theorem splitSent_extent :
    ∀ (s cur : List Char), noAdjDelims s = true →
      ∀ pr ∈ segsWithPos (splitSentAux s (some cur)) 0,
        pySlice (cur.reverse ++ s) pr.2 (pr.2 + pr.1.length) = pr.1 := by
  intro s
  induction s with
  | nil =>
    intro cur _ pr hpr
    simp only [splitSentAux, segsWithPos, List.mem_singleton] at hpr
    subst hpr
    simp [pySlice]
  | cons c rest ih =>
    intro cur hadj pr hpr
    by_cases hc : isSentDelim c = true
    · -- delimiter: the current segment is emitted
      simp only [splitSentAux, if_pos hc] at hpr
      have hrest : rest = [] ∨ ∃ d r2, rest = d :: r2 ∧ isSentDelim d = false := by
        cases rest with
        | nil => exact Or.inl rfl
        | cons d r2 =>
          refine Or.inr ⟨d, r2, rfl, ?_⟩
          simp only [noAdjDelims, Bool.and_eq_true, Bool.not_eq_true] at hadj
          rcases hadj with ⟨h1, _⟩
          cases hdd : isSentDelim d
          · rfl
          · rw [hc, hdd] at h1
            simp at h1
      rw [splitSentAux_none_eq_some_nil rest hrest] at hpr
      simp only [segsWithPos, List.mem_cons] at hpr
      rcases hpr with hpr | hpr
      · subst hpr
        simp only []
        show pySlice (cur.reverse ++ c :: rest) 0 (0 + cur.reverse.length) = cur.reverse
        unfold pySlice
        simp
      · -- a segment of the tail, shifted past `cur.reverse ++ [c]`
        rw [segsWithPos_shift _ (0 + (cur.reverse.length + 1))] at hpr
        rcases List.mem_map.mp hpr with ⟨pr0, hpr0, rfl⟩
        have hrec := ih [] (noAdjDelims_tail c rest hadj) pr0 hpr0
        simp only [List.reverse_nil, List.nil_append] at hrec
        show pySlice (cur.reverse ++ c :: rest) (pr0.2 + (0 + (cur.reverse.length + 1)))
          (pr0.2 + (0 + (cur.reverse.length + 1)) + pr0.1.length) = pr0.1
        have hsplit : cur.reverse ++ c :: rest = (cur.reverse ++ [c]) ++ rest := by
          simp
        have hlen : (cur.reverse ++ [c]).length = cur.reverse.length + 1 := by
          simp
        rw [hsplit]
        have e1 : pr0.2 + (0 + (cur.reverse.length + 1)) =
            (cur.reverse ++ [c]).length + pr0.2 := by
          rw [hlen]; omega
        have e2 : pr0.2 + (0 + (cur.reverse.length + 1)) + pr0.1.length =
            (cur.reverse ++ [c]).length + (pr0.2 + pr0.1.length) := by
          rw [hlen]; omega
        rw [e2, e1, pySlice_append_shift]
        exact hrec
    · -- ordinary character: absorbed into the current segment
      have hc2 : isSentDelim c = false := by
        cases h : isSentDelim c
        · rfl
        · exact absurd h hc
      simp only [splitSentAux, hc2, Bool.false_eq_true, if_false] at hpr
      have := ih (c :: cur) (noAdjDelims_tail c rest hadj) pr hpr
      simpa [List.reverse_cons, List.append_assoc] using this

/-- Total length the pass believes the segment list occupies: segment lengths
plus one separator character between consecutive segments. -/
def segWeight : List (List Char) → Nat
  | [] => 0
  | [s] => s.length
  | s :: rest => s.length + 1 + segWeight rest

theorem splitSentAux_ne_nil (s : List Char) :
    ∀ st, splitSentAux s st ≠ [] := by
  induction s with
  | nil => intro st; cases st <;> simp [splitSentAux]
  | cons c rest ih =>
    intro st
    cases st with
    | none =>
      by_cases hc : isSentDelim c = true
      · simpa [splitSentAux, hc] using ih none
      · simp only [splitSentAux, if_neg hc]
        exact ih (some [c])
    | some cur =>
      by_cases hc : isSentDelim c = true
      · simp [splitSentAux, hc]
      · simp only [splitSentAux, if_neg hc]
        exact ih (some (c :: cur))

theorem segWeight_cons (a : List Char) (l : List (List Char)) (h : l ≠ []) :
    segWeight (a :: l) = a.length + 1 + segWeight l := by
  cases l with
  | nil => exact absurd rfl h
  | cons b r => rfl

theorem segWeight_splitSentAux (s : List Char) :
    (∀ cur, segWeight (splitSentAux s (some cur)) ≤ cur.length + s.length) ∧
    segWeight (splitSentAux s none) ≤ s.length := by
  induction s with
  | nil =>
    refine ⟨fun cur => ?_, ?_⟩
    · simp [splitSentAux, segWeight]
    · simp [splitSentAux, segWeight]
  | cons c rest ih =>
    refine ⟨fun cur => ?_, ?_⟩
    · by_cases hc : isSentDelim c = true
      · simp only [splitSentAux, if_pos hc]
        rw [segWeight_cons _ _ (splitSentAux_ne_nil rest none)]
        have := ih.2
        simp only [List.length_cons, List.length_reverse]
        omega
      · simp only [splitSentAux, if_neg hc]
        have := ih.1 (c :: cur)
        simp only [List.length_cons] at this ⊢
        omega
    · by_cases hc : isSentDelim c = true
      · simp only [splitSentAux, if_pos hc]
        have := ih.2
        simp only [List.length_cons]
        omega
      · simp only [splitSentAux, if_neg hc]
        have := ih.1 [c]
        simp only [List.length_cons, List.length_nil] at this ⊢
        omega

theorem segsWithPos_le_weight (segs : List (List Char)) :
    ∀ n pr, pr ∈ segsWithPos segs n → pr.2 + pr.1.length ≤ n + segWeight segs := by
  induction segs with
  | nil => intro n pr hpr; simp [segsWithPos] at hpr
  | cons s rest ih =>
    intro n pr hpr
    simp only [segsWithPos, List.mem_cons] at hpr
    rcases hpr with rfl | hpr
    · cases rest with
      | nil => simp [segWeight]
      | cons b r =>
        rw [segWeight_cons _ _ (by simp)]
        simp only []
        omega
    · have := ih (n + (s.length + 1)) pr hpr
      cases rest with
      | nil => simp [segsWithPos] at hpr
      | cons b r =>
        rw [segWeight_cons _ _ (by simp)]
        omega

/-- C5 counterexample: on a text whose delimiter run `!!` has length 2, the
single long-sentence issue spans `[2, 43]` while the true extent of the
flagged segment is `[3, 44]` — the claimed span-equals-extent property of
the original text fails. -/
theorem long_sentences_span_not_extent :
    ((checkLongSentences (("a!!b b b b b b b b b b b b b b b b b b b b b").toList)).map
        fun w => (w.start, w.endPos)) = [(2, 43)] ∧
    splitSent (("a!!b b b b b b b b b b b b b b b b b b b b b").toList) =
      [("a").toList, ("b b b b b b b b b b b b b b b b b b b b b").toList] ∧
    pySlice (("a!!b b b b b b b b b b b b b b b b b b b b b").toList) 2 43 ≠
      ("b b b b b b b b b b b b b b b b b b b b b").toList ∧
    pySlice (("a!!b b b b b b b b b b b b b b b b b b b b b").toList) 3 44 =
      ("b b b b b b b b b b b b b b b b b b b b b").toList := by
  refine ⟨?_, ?_, ?_, ?_⟩ <;> decide

/-- C5 (amended): the pass splits `t` on runs of `.`, `!`, `?` and flags
exactly the segments with more than 20 whitespace-delimited tokens; each
span of each issue is `[p, p + len(segment)]` where `p` is the accumulated position
(the sum of `len + 1` over earlier segments).  That span equals the extent of the segment in the original text whenever every delimiter run in `t` has length
exactly 1 (no two adjacent delimiters); with longer runs it drifts left. -/
theorem long_sentences_flags_over20_at_accumulated_positions (t : List Char) :
    checkLongSentences t =
      ((segsWithPos (splitSent t) 0).filterMap fun pr =>
        if 20 < (pySplit pr.1).length then some (mkLongIssue pr) else none) ∧
    (noAdjDelims t = true →
      ∀ pr ∈ segsWithPos (splitSent t) 0,
        pySlice t pr.2 (pr.2 + pr.1.length) = pr.1) := by
  constructor
  · exact longGo_eq_filterMap (splitSent t) 0
  · intro hadj pr hpr
    have h := splitSent_extent t [] hadj pr hpr
    simpa using h

/-- C5 witness: on `"a.b b … b"` (single-character delimiter run, 21-token
second segment) the span `[2, 2 + 41]` of the flagged segment is its true extent. -/
theorem long_sentences_flags_over20_witness :
    ((checkLongSentences (("a.b b b b b b b b b b b b b b b b b b b b b").toList)).map
        fun w => (w.start, w.endPos)) = [(2, 43)] ∧
    pySlice (("a.b b b b b b b b b b b b b b b b b b b b b").toList) 2
        (2 + (("b b b b b b b b b b b b b b b b b b b b b").toList).length) =
      ("b b b b b b b b b b b b b b b b b b b b b").toList := by
  refine ⟨by decide, ?_⟩
  have h := long_sentences_flags_over20_at_accumulated_positions
    (("a.b b b b b b b b b b b b b b b b b b b b b").toList)
  exact h.2 (by decide) ((("b b b b b b b b b b b b b b b b b b b b b").toList), 2) (by decide)

/-- Span validity of the long_sentences pass (used for C2): the span of
every issue is a valid range into `t`. -/
theorem checkLongSentences_span_valid (t : List Char) :
    ∀ w ∈ checkLongSentences t, w.start ≤ w.endPos ∧ w.endPos ≤ t.length := by
  intro w hw
  have hrw : checkLongSentences t = longGo (splitSent t) 0 := rfl
  rw [hrw, longGo_eq_filterMap] at hw
  rcases List.mem_filterMap.mp hw with ⟨pr, hpr, heq⟩
  by_cases h20 : 20 < (pySplit pr.1).length
  · rw [if_pos h20, Option.some.injEq] at heq
    subst heq
    refine ⟨by simp [mkLongIssue], ?_⟩
    have h1 := segsWithPos_le_weight (splitSent t) 0 pr hpr
    have h2 := (segWeight_splitSentAux t).1 []
    simp only [List.length_nil, Nat.zero_add] at h2
    have h3 : splitSent t = splitSentAux t (some []) := rfl
    rw [h3] at h1
    simp only [mkLongIssue]
    show pr.2 + pr.1.length ≤ t.length
    omega
  · rw [if_neg h20] at heq
    exact absurd heq (by simp)

/-!
## Claim C6: the repeated_words pass

`pySplitPos` is `pySplit` annotated with the true start offset of each token;
the source pass instead relocates each issue with `text.lower().find(...)`.
-/

/-- Does `w` occur (contiguously) at offset `q` of `t`? -/
def occursAt (t w : List Char) (q : Nat) : Prop := (t.drop q).take w.length = w

instance (t w : List Char) (q : Nat) : Decidable (occursAt t w q) := by
  unfold occursAt
  infer_instance

/-- Variant of `pySplitAux` with each token paired with its start offset (`p` is the
index of the next character to examine). -/
def pySplitPosAux : List Char → List Char → Nat → List (Nat × List Char)
  | [], acc, p => if acc = [] then [] else [(p - acc.length, acc.reverse)]
  | c :: rest, acc, p =>
    if isSpaceChar c then
      if acc = [] then pySplitPosAux rest [] (p + 1)
      else (p - acc.length, acc.reverse) :: pySplitPosAux rest [] (p + 1)
    else pySplitPosAux rest (c :: acc) (p + 1)

/-- Variant of `pySplit` with true token start offsets. -/
def pySplitPos (t : List Char) : List (Nat × List Char) := pySplitPosAux t [] 0

theorem pySplitPosAux_map_snd (s : List Char) :
    ∀ (acc : List Char) (p : Nat),
      (pySplitPosAux s acc p).map Prod.snd = pySplitAux s acc := by
  induction s with
  | nil =>
    intro acc p
    by_cases h : acc = []
    · simp [pySplitPosAux, pySplitAux, h]
    · simp [pySplitPosAux, pySplitAux, h]
  | cons c rest ih =>
    intro acc p
    by_cases hc : isSpaceChar c = true
    · by_cases h : acc = []
      · simp [pySplitPosAux, pySplitAux, hc, h, ih]
      · simp [pySplitPosAux, pySplitAux, hc, h, ih]
    · simp [pySplitPosAux, pySplitAux, hc, ih]

theorem pySplitPosAux_occurs (t : List Char) :
    ∀ (s acc : List Char) (p : Nat),
      t.drop p = s → acc.length ≤ p → p ≤ t.length →
      (t.drop (p - acc.length)).take acc.length = acc.reverse →
      ∀ pr ∈ pySplitPosAux s acc p,
        occursAt t pr.2 pr.1 ∧ pr.1 + pr.2.length ≤ t.length := by
  intro s
  induction s with
  | nil =>
    intro acc p hdrop hacc hple hocc pr hpr
    by_cases h : acc = []
    · simp [pySplitPosAux, h] at hpr
    · simp only [pySplitPosAux, if_neg h, List.mem_singleton] at hpr
      subst hpr
      constructor
      · show (t.drop (p - acc.length)).take acc.reverse.length = acc.reverse
        rw [List.length_reverse]
        exact hocc
      · simp only [List.length_reverse]
        omega
  | cons c rest ih =>
    intro acc p hdrop hacc hple hocc pr hpr
    have hplt : p < t.length := by
      have := congrArg List.length hdrop
      rw [List.length_drop] at this
      simp only [List.length_cons] at this
      omega
    have hdrop1 : t.drop (p + 1) = rest := by
      have : t.drop (p + 1) = (t.drop p).drop 1 := by
        rw [List.drop_drop]
      rw [this, hdrop]
      rfl
    have hgetp : t[p]? = some c := by
      have h0 : (t.drop p)[0]? = t[p + 0]? := List.getElem?_drop t p 0
      rw [hdrop] at h0
      simpa using h0.symm
    by_cases hc : isSpaceChar c = true
    · by_cases h : acc = []
      · simp only [pySplitPosAux, if_pos hc, if_pos h] at hpr
        exact ih [] (p + 1) hdrop1 (by simp) (by omega) (by simp) pr hpr
      · simp only [pySplitPosAux, if_pos hc, if_neg h, List.mem_cons] at hpr
        rcases hpr with hpr | hpr
        · subst hpr
          constructor
          · show (t.drop (p - acc.length)).take acc.reverse.length = acc.reverse
            rw [List.length_reverse]
            exact hocc
          · simp only [List.length_reverse]
            omega
        · exact ih [] (p + 1) hdrop1 (by simp) (by omega) (by simp) pr hpr
    · simp only [pySplitPosAux, if_neg hc] at hpr
      refine ih (c :: acc) (p + 1) hdrop1 (by simp; omega) (by omega) ?_ pr hpr
      have he : p + 1 - (c :: acc).length = p - acc.length := by
        simp only [List.length_cons]
        omega
      rw [he]
      simp only [List.length_cons, List.reverse_cons]
      rw [List.take_succ, hocc]
      have : (t.drop (p - acc.length))[acc.length]? = some c := by
        rw [List.getElem?_drop]
        have : p - acc.length + acc.length = p := by omega
        rw [this, hgetp]
      rw [this]
      rfl

theorem pySplitPosAux_pos_ge (s : List Char) :
    ∀ (acc : List Char) (p : Nat), acc.length ≤ p →
      ∀ pr ∈ pySplitPosAux s acc p, p - acc.length ≤ pr.1 := by
  induction s with
  | nil =>
    intro acc p hacc pr hpr
    by_cases h : acc = []
    · simp [pySplitPosAux, h] at hpr
    · simp only [pySplitPosAux, if_neg h, List.mem_singleton] at hpr
      subst hpr
      exact Nat.le_refl _
  | cons c rest ih =>
    intro acc p hacc pr hpr
    by_cases hc : isSpaceChar c = true
    · by_cases h : acc = []
      · simp only [pySplitPosAux, if_pos hc, if_pos h] at hpr
        have := ih [] (p + 1) (by simp) pr hpr
        simp only [List.length_nil, Nat.sub_zero] at this
        omega
      · simp only [pySplitPosAux, if_pos hc, if_neg h, List.mem_cons] at hpr
        rcases hpr with hpr | hpr
        · subst hpr
          exact Nat.le_refl _
        · have := ih [] (p + 1) (by simp) pr hpr
          simp only [List.length_nil, Nat.sub_zero] at this
          omega
    · simp only [pySplitPosAux, if_neg hc] at hpr
      have := ih (c :: acc) (p + 1) (by simp; omega) pr hpr
      simp only [List.length_cons] at this
      omega

theorem pySplitPosAux_chain (s : List Char) :
    ∀ (acc : List Char) (p : Nat), acc.length ≤ p →
      List.Chain' (fun a b => a.1 + a.2.length < b.1) (pySplitPosAux s acc p) := by
  induction s with
  | nil =>
    intro acc p hacc
    by_cases h : acc = []
    · simp [pySplitPosAux, h]
    · simp [pySplitPosAux, h]
  | cons c rest ih =>
    intro acc p hacc
    by_cases hc : isSpaceChar c = true
    · by_cases h : acc = []
      · simp only [pySplitPosAux, if_pos hc, if_pos h]
        exact ih [] (p + 1) (by simp)
      · simp only [pySplitPosAux, if_pos hc, if_neg h]
        rw [List.chain'_cons']
        refine ⟨?_, ih [] (p + 1) (by simp)⟩
        intro b hb
        have hbm : b ∈ pySplitPosAux rest [] (p + 1) := List.mem_of_mem_head? hb
        have := pySplitPosAux_pos_ge rest [] (p + 1) (by simp) b hbm
        simp only [List.length_nil, Nat.sub_zero] at this
        simp only [List.length_reverse]
        omega
    · simp only [pySplitPosAux, if_neg hc]
      exact ih (c :: acc) (p + 1) (by simp; omega)

theorem repPairs_map {α β : Type} (f : α → β) :
    ∀ l : List α, repPairs (l.map f) = (repPairs l).map fun pr => (f pr.1, f pr.2) := by
  intro l
  induction l with
  | nil => rfl
  | cons a l ih =>
    cases l with
    | nil => rfl
    | cons b rest =>
      simp only [List.map_cons, repPairs, List.map_cons] at ih ⊢
      rw [ih]

theorem repPairs_rel {α : Type} (R : α → α → Prop) :
    ∀ l : List α, List.Chain' R l →
      ∀ pr ∈ repPairs l, R pr.1 pr.2 ∧ pr.1 ∈ l ∧ pr.2 ∈ l := by
  intro l
  induction l with
  | nil => intro _ pr hpr; simp [repPairs] at hpr
  | cons a l ih =>
    intro hch pr hpr
    cases l with
    | nil => simp [repPairs] at hpr
    | cons b rest =>
      simp only [repPairs, List.mem_cons] at hpr
      rcases hpr with hpr | hpr
      · subst hpr
        rcases List.chain'_cons.mp hch with ⟨hab, _⟩
        exact ⟨hab, by simp, by simp⟩
      · have hch2 : List.Chain' R (b :: rest) := (List.chain'_cons'.mp hch).2
        have := ih hch2 pr hpr
        exact ⟨this.1, List.mem_cons_of_mem a this.2.1, List.mem_cons_of_mem a this.2.2⟩

/-- Adjacent tokens of `text.split()` occur in the text, separated by at
least one whitespace character. -/
theorem pySplit_adjacent_tokens (t : List Char) :
    ∀ pr ∈ repPairs (pySplit t), ∃ q1 q2 : Nat,
      occursAt t pr.1 q1 ∧ occursAt t pr.2 q2 ∧
      q1 + pr.1.length < q2 ∧ q2 + pr.2.length ≤ t.length := by
  intro pr hpr
  have hmap : pySplit t = (pySplitPos t).map Prod.snd :=
    (pySplitPosAux_map_snd t [] 0).symm
  rw [hmap, repPairs_map] at hpr
  rcases List.mem_map.mp hpr with ⟨pq, hpq, heq⟩
  have hrel := repPairs_rel (fun a b => a.1 + a.2.length < b.1) (pySplitPos t)
    (pySplitPosAux_chain t [] 0 (by simp)) pq hpq
  obtain ⟨hlt, hm1, hm2⟩ := hrel
  have h1 := pySplitPosAux_occurs t t [] 0 (by simp) (by simp) (by simp) (by simp) pq.1 hm1
  have h2 := pySplitPosAux_occurs t t [] 0 (by simp) (by simp) (by simp) (by simp) pq.2 hm2
  refine ⟨pq.1.1, pq.2.1, ?_, ?_, ?_, ?_⟩
  · rw [← heq] at *
    exact h1.1
  · rw [← heq] at *
    exact h2.1
  · rw [← heq]
    exact hlt
  · rw [← heq]
    exact h2.2

theorem matchesAt_iff (hay nd : List Char) (q : Nat) :
    matchesAt hay nd q = true ↔ occursAt hay nd q := by
  unfold matchesAt occursAt
  exact decide_eq_true_iff

theorem strFindAux_spec (hay nd : List Char) :
    ∀ (fuel p q : Nat), strFindAux hay nd fuel p = some q →
      matchesAt hay nd q = true ∧ p ≤ q := by
  intro fuel
  induction fuel with
  | zero => intro p q h; simp [strFindAux] at h
  | succ fuel ih =>
    intro p q h
    by_cases hm : matchesAt hay nd p = true
    · simp only [strFindAux, if_pos hm, Option.some.injEq] at h
      subst h
      exact ⟨hm, Nat.le_refl _⟩
    · simp only [strFindAux, if_neg hm] at h
      have := ih (p + 1) q h
      exact ⟨this.1, by omega⟩

theorem strFindAux_min (hay nd : List Char) :
    ∀ (fuel p q r : Nat), strFindAux hay nd fuel p = some q →
      p ≤ r → matchesAt hay nd r = true → q ≤ r := by
  intro fuel
  induction fuel with
  | zero => intro p q r h; simp [strFindAux] at h
  | succ fuel ih =>
    intro p q r h hpr hr
    by_cases hm : matchesAt hay nd p = true
    · simp only [strFindAux, if_pos hm, Option.some.injEq] at h
      omega
    · simp only [strFindAux, if_neg hm] at h
      have hne : p ≠ r := by
        intro he
        rw [he] at hm
        exact hm hr
      exact ih (p + 1) q r h (by omega) hr

theorem strFindAux_complete (hay nd : List Char) :
    ∀ (fuel p r : Nat), p ≤ r → r < p + fuel → matchesAt hay nd r = true →
      ∃ q, strFindAux hay nd fuel p = some q := by
  intro fuel
  induction fuel with
  | zero => intro p r h1 h2 _; omega
  | succ fuel ih =>
    intro p r h1 h2 hr
    by_cases hm : matchesAt hay nd p = true
    · exact ⟨p, by simp [strFindAux, hm]⟩
    · have hne : p ≠ r := by
        intro he
        rw [he] at hm
        exact hm hr
      have ⟨q, hq⟩ := ih (p + 1) r (by omega) (by omega) hr
      exact ⟨q, by simp [strFindAux, hm, hq]⟩

theorem occursAt_lowerL (t w : List Char) (q : Nat) (h : occursAt t w q) :
    occursAt (lowerL t) (lowerL w) q := by
  unfold occursAt at h ⊢
  unfold lowerL
  rw [List.length_map, ← List.map_drop, ← List.map_take, h]

/-- The issue `_check_repeated_words` builds for a case-insensitively equal
adjacent token pair (the `find`, which always succeeds here, is defaulted). -/
def mkRepIssue (t : List Char) (pr : List Char × List Char) : WritingIssue :=
  ⟨("repeated_words"), (strFind (lowerL t) (lowerL pr.1)).getD 0,
    (strFind (lowerL t) (lowerL pr.1)).getD 0 + (pr.1.length + 1 + pr.2.length),
    pr.1 ++ [' '] ++ pr.2, ("Remove the repeated word")⟩

theorem filterMap_eq_filter_map {α β : Type} (f : α → Option β) (p : α → Bool) (g : α → β) :
    ∀ l : List α, (∀ a ∈ l, f a = if p a then some (g a) else none) →
      l.filterMap f = (l.filter p).map g := by
  intro l
  induction l with
  | nil => intro _; rfl
  | cons a l ih =>
    intro h
    have ha := h a (by simp)
    rw [List.filterMap_cons, List.filter_cons]
    by_cases hp : p a = true
    · rw [if_pos hp] at ha
      rw [ha, if_pos hp, List.map_cons, ih fun b hb => h b (by simp [hb])]
    · rw [if_neg hp] at ha
      rw [ha, if_neg hp, ih fun b hb => h b (by simp [hb])]

/-- Lemma: `find` always succeeds for a repeated pair: the first token occurs in the
text. -/
theorem strFind_succeeds_for_pair (t : List Char) (pr : List Char × List Char)
    (hpr : pr ∈ repPairs (pySplit t)) :
    ∃ pos, strFind (lowerL t) (lowerL pr.1) = some pos := by
  obtain ⟨q1, _, ho1, _, hsep, hb⟩ := pySplit_adjacent_tokens t pr hpr
  have holow : occursAt (lowerL t) (lowerL pr.1) q1 := occursAt_lowerL t pr.1 q1 ho1
  have hq1 : q1 ≤ (lowerL t).length := by
    unfold lowerL
    rw [List.length_map]
    omega
  exact strFindAux_complete (lowerL t) (lowerL pr.1) ((lowerL t).length + 1) 0 q1
    (Nat.zero_le _) (by omega) ((matchesAt_iff _ _ _).mpr holow)

/-- C6 counterexample: on `"go now go go"` the single repeated-word issue
(for the adjacent pair at offsets 7 and 10) spans `[0, 5]` — located at the
first occurrence of `go` — whose text is `"go no"`: the span does not cover
the two tokens (which occupy `[7, 12]`). -/
theorem repeated_words_span_mislocated :
    ((checkRepeatedWords (("go now go go").toList)).map
        fun w => (w.start, w.endPos, w.text)) = [(0, 5, ("go go").toList)] ∧
    pySlice (("go now go go").toList) 0 5 = ("go no").toList ∧
    pySlice (("go now go go").toList) 7 12 = ("go go").toList := by
  refine ⟨?_, ?_, ?_⟩ <;> decide

/-- C6 (amended): the pass flags exactly the adjacent case-insensitively
identical token pairs; each issue starts at the first case-insensitive
occurrence of the first token in the text (which may be earlier than the pair
itself) and spans `len(w1) + 1 + len(w2)` characters from there — it covers
the pair and its separator only when the first occurrence is the pair itself
and the tokens are separated by a single whitespace character. -/
theorem repeated_words_first_occurrence_span (t : List Char) :
    checkRepeatedWords t =
      ((repPairs (pySplit t)).filter fun pr => decide (lowerL pr.1 = lowerL pr.2)).map
        (mkRepIssue t) ∧
    ∀ w ∈ checkRepeatedWords t, ∃ w1 w2 : List Char,
      (w1, w2) ∈ repPairs (pySplit t) ∧ lowerL w1 = lowerL w2 ∧
      w.endPos = w.start + (w1.length + 1 + w2.length) ∧
      occursAt (lowerL t) (lowerL w1) w.start ∧
      ∀ q < w.start, ¬ occursAt (lowerL t) (lowerL w1) q := by
  have hchar : checkRepeatedWords t =
      ((repPairs (pySplit t)).filter fun pr => decide (lowerL pr.1 = lowerL pr.2)).map
        (mkRepIssue t) := by
    unfold checkRepeatedWords
    refine filterMap_eq_filter_map _ _ _ _ fun pr hpr => ?_
    by_cases hlow : lowerL pr.1 = lowerL pr.2
    · obtain ⟨pos, hpos⟩ := strFind_succeeds_for_pair t pr hpr
      rw [if_pos hlow, hpos, if_pos (by simp [hlow])]
      simp [mkRepIssue, hpos]
    · rw [if_neg hlow, if_neg (by simp [hlow])]
  refine ⟨hchar, fun w hw => ?_⟩
  unfold checkRepeatedWords at hw
  rcases List.mem_filterMap.mp hw with ⟨pr, hpr, heq⟩
  by_cases hlow : lowerL pr.1 = lowerL pr.2
  · rw [if_pos hlow] at heq
    cases hfind : strFind (lowerL t) (lowerL pr.1) with
    | none =>
      rw [hfind] at heq
      exact absurd heq (by simp)
    | some pos =>
      rw [hfind, Option.some.injEq] at heq
      subst heq
      have hspec := strFindAux_spec (lowerL t) (lowerL pr.1)
        ((lowerL t).length + 1) 0 pos hfind
      refine ⟨pr.1, pr.2, hpr, hlow, rfl, (matchesAt_iff _ _ _).mp hspec.1, ?_⟩
      intro q hq hocc
      have hq2 : q < pos := hq
      have := strFindAux_min (lowerL t) (lowerL pr.1) ((lowerL t).length + 1) 0 pos q
        hfind (Nat.zero_le _) ((matchesAt_iff _ _ _).mpr hocc)
      omega
  · rw [if_neg hlow] at heq
    exact absurd heq (by simp)

/-- C6 witness: on `"go go"`, the characterization applied to the single
issue `⟨repeated_words, 0, 5, "go go", …⟩`. -/
theorem repeated_words_first_occurrence_span_witness :
    checkRepeatedWords (("go go").toList) =
      ((repPairs (pySplit (("go go").toList))).filter
        fun pr => decide (lowerL pr.1 = lowerL pr.2)).map (mkRepIssue (("go go").toList)) ∧
    ∃ w1 w2 : List Char,
      (w1, w2) ∈ repPairs (pySplit (("go go").toList)) ∧ lowerL w1 = lowerL w2 ∧
      (5 : Nat) = 0 + (w1.length + 1 + w2.length) ∧
      occursAt (lowerL (("go go").toList)) (lowerL w1) 0 ∧
      ∀ q < 0, ¬ occursAt (lowerL (("go go").toList)) (lowerL w1) q := by
  have h := repeated_words_first_occurrence_span (("go go").toList)
  refine ⟨h.1, ?_⟩
  exact h.2 ⟨("repeated_words"), 0, 5, ("go go").toList, ("Remove the repeated word")⟩
    (by decide)

/-- Span validity of the repeated_words pass (used for C2): even though the
span is relocated by first-occurrence search, it stays inside the text —
the first occurrence is no later than the pair itself, and the pair plus a
one-character separator fits in the text. -/
theorem checkRepeatedWords_span_valid (t : List Char) :
    ∀ w ∈ checkRepeatedWords t, w.start ≤ w.endPos ∧ w.endPos ≤ t.length := by
  intro w hw
  unfold checkRepeatedWords at hw
  rcases List.mem_filterMap.mp hw with ⟨pr, hpr, heq⟩
  by_cases hlow : lowerL pr.1 = lowerL pr.2
  · rw [if_pos hlow] at heq
    cases hfind : strFind (lowerL t) (lowerL pr.1) with
    | none =>
      rw [hfind] at heq
      exact absurd heq (by simp)
    | some pos =>
      rw [hfind, Option.some.injEq] at heq
      subst heq
      obtain ⟨q1, q2, ho1, ho2, hsep, hb⟩ := pySplit_adjacent_tokens t pr hpr
      have holow : occursAt (lowerL t) (lowerL pr.1) q1 := occursAt_lowerL t pr.1 q1 ho1
      have hple : pos ≤ q1 := strFindAux_min (lowerL t) (lowerL pr.1)
        ((lowerL t).length + 1) 0 pos q1 hfind (Nat.zero_le _)
        ((matchesAt_iff _ _ _).mpr holow)
      constructor
      · show pos ≤ pos + (pr.1.length + 1 + pr.2.length)
        omega
      · show pos + (pr.1.length + 1 + pr.2.length) ≤ t.length
        omega
  · rw [if_neg hlow] at heq
    exact absurd heq (by simp)

/-!
## Claim C2: every issue span is a valid range into the text

Each regex matcher only ever moves the position forward and never past the
end of the text; `finditer` therefore yields valid spans, and the two
position-rederiving passes (long_sentences, repeated_words) were bounded
above.
-/

/-- A matcher only moves forward and stays inside the text. -/
def MatchBound (m : PM) : Prop :=
  ∀ (s : List Char) (i e : Nat), i ≤ s.length → m s i = some e → i ≤ e ∧ e ≤ s.length

theorem matchBoundary_bound : MatchBound matchBoundary := by
  intro s i e hi h
  unfold matchBoundary at h
  split at h
  · cases h
    exact ⟨Nat.le_refl _, hi⟩
  · cases h

theorem matchLitCI_bound (w : List Char) : MatchBound (matchLitCI w) := by
  intro s i e hi h
  unfold matchLitCI at h
  split at h
  · next hc =>
    cases h
    have hlen := congrArg List.length hc
    simp only [lowerL, pySlice, List.length_map, List.length_take, List.length_drop] at hlen
    omega
  · cases h

theorem length_takeWhile_le' {α : Type} (p : α → Bool) (l : List α) :
    (l.takeWhile p).length ≤ l.length := by
  induction l with
  | nil => simp
  | cons a l ih =>
    rw [List.takeWhile_cons]
    split
    · simp only [List.length_cons]
      omega
    · simp

theorem matchPlus_bound (p : Char → Bool) : MatchBound (matchPlus p) := by
  intro s i e hi h
  unfold matchPlus at h
  simp only [] at h
  split at h
  · cases h
  · next hn =>
    cases h
    have := length_takeWhile_le' p (s.drop i)
    rw [List.length_drop] at this
    omega

theorem matchWordRunEnd_bound (suf : List Char) : MatchBound (matchWordRunEnd suf) := by
  intro s i e hi h
  unfold matchWordRunEnd at h
  simp only [] at h
  split at h
  · cases h
    have := length_takeWhile_le' isWordChar (s.drop i)
    rw [List.length_drop] at this
    omega
  · cases h

theorem pseq_bound (m1 m2 : PM) (h1 : MatchBound m1) (h2 : MatchBound m2) :
    MatchBound (pseq m1 m2) := by
  intro s i e hi h
  unfold pseq at h
  cases hm : m1 s i with
  | none => rw [hm] at h; cases h
  | some j =>
    rw [hm] at h
    simp only [Option.some_bind] at h
    obtain ⟨hij, hjl⟩ := h1 s i j hi hm
    obtain ⟨hje, hel⟩ := h2 s j e hjl h
    exact ⟨Nat.le_trans hij hje, hel⟩

theorem tryAlts_bound (ws : List (List Char)) (k : PM) (hk : MatchBound k) :
    MatchBound (tryAlts ws k) := by
  induction ws with
  | nil => intro s i e hi h; cases h
  | cons w ws ih =>
    intro s i e hi h
    simp only [tryAlts] at h
    cases hb : (matchLitCI w s i).bind (k s) with
    | some e2 =>
      simp only [hb] at h
      cases h
      exact pseq_bound (matchLitCI w) k (matchLitCI_bound w) hk s i _ hi hb
    | none =>
      simp only [hb] at h
      exact ih s i e hi h

theorem finditerAux_bound (m : PM) (hm : MatchBound m) (s : List Char) :
    ∀ (fuel i : Nat), ∀ pr ∈ finditerAux m s fuel i, pr.1 ≤ pr.2 ∧ pr.2 ≤ s.length := by
  intro fuel
  induction fuel with
  | zero => intro i pr hpr; simp [finditerAux] at hpr
  | succ fuel ih =>
    intro i pr hpr
    by_cases hi : i ≤ s.length
    · rw [finditerAux, if_pos hi] at hpr
      cases hmi : m s i with
      | none =>
        rw [hmi] at hpr
        exact ih (i + 1) pr hpr
      | some e =>
        rw [hmi] at hpr
        rcases List.mem_cons.mp hpr with rfl | hpr
        · exact hm s i e hi hmi
        · exact ih (max e (i + 1)) pr hpr
    · rw [finditerAux, if_neg hi] at hpr
      cases hpr

theorem finditer_bound (m : PM) (hm : MatchBound m) (s : List Char) :
    ∀ pr ∈ finditer m s, pr.1 ≤ pr.2 ∧ pr.2 ≤ s.length :=
  finditerAux_bound m hm s (s.length + 1) 0

theorem matchPassive1_bound : MatchBound matchPassive1 :=
  pseq_bound _ _ matchBoundary_bound
    (tryAlts_bound _ _ (pseq_bound _ _ (matchPlus_bound _) (matchWordRunEnd_bound _)))

theorem matchPassive2_bound : MatchBound matchPassive2 :=
  pseq_bound _ _ matchBoundary_bound
    (pseq_bound _ _ (matchLitCI_bound _)
      (pseq_bound _ _ (matchPlus_bound _)
        (pseq_bound _ _ (matchPlus_bound _)
          (pseq_bound _ _ (matchPlus_bound _) (tryAlts_bound _ _ matchBoundary_bound)))))

theorem wordPattern_bound (w : List Char) : MatchBound (wordPattern w) :=
  pseq_bound _ _ matchBoundary_bound
    (pseq_bound _ _ (matchLitCI_bound w) matchBoundary_bound)

theorem matchAdverb_bound : MatchBound matchAdverb :=
  pseq_bound _ _ matchBoundary_bound (matchWordRunEnd_bound _)

theorem confused_bounds :
    ∀ pm ∈ CONFUSED_PATTERNS, MatchBound pm.1 := by
  intro pm hpm
  simp only [CONFUSED_PATTERNS, List.mem_cons, List.not_mem_nil, or_false] at hpm
  rcases hpm with rfl | rfl | rfl | rfl | rfl
  · exact pseq_bound _ _ matchBoundary_bound
      (pseq_bound _ _ (matchLitCI_bound _)
        (pseq_bound _ _ (matchPlus_bound _)
          (pseq_bound _ _ (matchPlus_bound _)
            (pseq_bound _ _ (matchPlus_bound _)
              (pseq_bound _ _ (matchLitCI_bound _) matchBoundary_bound)))))
  · exact pseq_bound _ _ matchBoundary_bound
      (pseq_bound _ _ (matchLitCI_bound _)
        (pseq_bound _ _ (matchPlus_bound _)
          (pseq_bound _ _ (matchPlus_bound _)
            (pseq_bound _ _ (matchPlus_bound _)
              (pseq_bound _ _ (matchLitCI_bound _) matchBoundary_bound)))))
  · exact pseq_bound _ _ matchBoundary_bound
      (pseq_bound _ _ (matchLitCI_bound _) (matchPlus_bound _))
  · exact pseq_bound _ _ matchBoundary_bound
      (pseq_bound _ _ (matchLitCI_bound _)
        (pseq_bound _ _ (matchPlus_bound _)
          (pseq_bound _ _ (matchPlus_bound _)
            (pseq_bound _ _ (matchPlus_bound _) (matchPlus_bound _)))))
  · exact pseq_bound _ _ matchBoundary_bound
      (pseq_bound _ _ (matchLitCI_bound _) (matchPlus_bound _))

theorem snd_mem_of_mem_enumFrom {α : Type} :
    ∀ (l : List α) (n : Nat) (x : Nat × α), x ∈ l.enumFrom n → x.2 ∈ l := by
  intro l
  induction l with
  | nil => intro n x hx; simp [List.enumFrom] at hx
  | cons a l ih =>
    intro n x hx
    simp only [List.enumFrom, List.mem_cons] at hx
    rcases hx with rfl | hx
    · simp
    · exact List.mem_cons_of_mem a (ih (n + 1) x hx)

theorem mem_if_list {α : Type} {w : α} {b : Bool} {l : List α}
    (h : w ∈ (if b then l else [])) : w ∈ l := by
  cases b with
  | false => simp at h
  | true => simpa using h

/-- Span shape shared by all `WritingIssue`s built directly from a match. -/
def SpanValid (t : List Char) (w : WritingIssue) : Prop :=
  w.start ≤ w.endPos ∧ w.endPos ≤ t.length

theorem checkPassiveVoice_span_valid (t : List Char) :
    ∀ w ∈ checkPassiveVoice t, SpanValid t w := by
  intro w hw
  unfold checkPassiveVoice at hw
  rcases List.mem_map.mp hw with ⟨pr, hpr, rfl⟩
  rcases List.mem_append.mp hpr with h | h
  · exact finditer_bound _ matchPassive1_bound t pr h
  · exact finditer_bound _ matchPassive2_bound t pr h

theorem checkWeakWords_span_valid (t : List Char) :
    ∀ w ∈ checkWeakWords t, SpanValid t w := by
  intro w hw
  unfold checkWeakWords at hw
  rcases List.mem_flatten.mp hw with ⟨l, hl, hwl⟩
  rcases List.mem_map.mp hl with ⟨word, _, rfl⟩
  rcases List.mem_map.mp hwl with ⟨pr, hpr, rfl⟩
  exact finditer_bound _ (wordPattern_bound word) t pr hpr

theorem checkJargon_span_valid (t : List Char) :
    ∀ w ∈ checkJargon t, SpanValid t w := by
  intro w hw
  unfold checkJargon at hw
  rcases List.mem_flatten.mp hw with ⟨l, hl, hwl⟩
  rcases List.mem_map.mp hl with ⟨pair, _, rfl⟩
  rcases List.mem_map.mp hwl with ⟨pr, hpr, rfl⟩
  exact finditer_bound _ (wordPattern_bound pair.1) t pr hpr

theorem checkAdjectivesAdverbs_span_valid (t : List Char) :
    ∀ w ∈ checkAdjectivesAdverbs t, SpanValid t w := by
  intro w hw
  unfold checkAdjectivesAdverbs at hw
  rcases List.mem_map.mp hw with ⟨pr, hpr, rfl⟩
  have := List.mem_filter.mp hpr
  exact finditer_bound _ matchAdverb_bound t pr this.1

theorem checkSimpleAlternatives_span_valid (t : List Char) :
    ∀ w ∈ checkSimpleAlternatives t, SpanValid t w := by
  intro w hw
  unfold checkSimpleAlternatives at hw
  rcases List.mem_flatten.mp hw with ⟨l, hl, hwl⟩
  rcases List.mem_map.mp hl with ⟨pair, _, rfl⟩
  rcases List.mem_map.mp hwl with ⟨pr, hpr, rfl⟩
  exact finditer_bound _ (wordPattern_bound pair.1) t pr hpr

theorem checkConfusedSynonyms_span_valid (t : List Char) :
    ∀ w ∈ checkConfusedSynonyms t, SpanValid t w := by
  intro w hw
  unfold checkConfusedSynonyms at hw
  rcases List.mem_flatten.mp hw with ⟨l, hl, hwl⟩
  rcases List.mem_map.mp hl with ⟨pm, hpm, rfl⟩
  rcases List.mem_map.mp hwl with ⟨pr, hpr, rfl⟩
  exact finditer_bound _ (confused_bounds pm hpm) t pr hpr

theorem checkCinnamonWords_span_valid (registry : List (List Char)) (t : List Char) :
    ∀ w ∈ checkCinnamonWords registry t, SpanValid t w := by
  intro w hw
  unfold checkCinnamonWords at hw
  rcases List.mem_flatten.mp hw with ⟨l, hl, hwl⟩
  rcases List.mem_map.mp hl with ⟨word, _, rfl⟩
  rcases List.mem_map.mp hwl with ⟨pr, hpr, rfl⟩
  have hm : pr.2 ∈ finditer (wordPattern word) t :=
    snd_mem_of_mem_enumFrom _ 0 pr hpr
  exact finditer_bound _ (wordPattern_bound word) t pr.2 hm

theorem allIssues_span_valid (cfg : CheckConfig) (registry : List (List Char))
    (t : List Char) : ∀ w ∈ allIssues cfg registry t, SpanValid t w := by
  intro w hw
  unfold allIssues at hw
  simp only [List.mem_append] at hw
  rcases hw with ((((((((h | h) | h) | h) | h) | h) | h) | h) | h)
  · exact checkPassiveVoice_span_valid t w (mem_if_list h)
  · exact checkWeakWords_span_valid t w (mem_if_list h)
  · exact checkLongSentences_span_valid t w (mem_if_list h)
  · exact checkJargon_span_valid t w (mem_if_list h)
  · exact checkAdjectivesAdverbs_span_valid t w (mem_if_list h)
  · exact checkSimpleAlternatives_span_valid t w (mem_if_list h)
  · exact checkConfusedSynonyms_span_valid t w (mem_if_list h)
  · exact checkRepeatedWords_span_valid t w (mem_if_list h)
  · exact checkCinnamonWords_span_valid registry t w (mem_if_list h)

/-- C2: every issue returned by `check_text` has a valid half-open span into
the scanned text: `start ≤ end ≤ len(t)` (offsets are naturals, so
`0 ≤ start` holds by construction); in particular this covers the
repeated_words pass (spans relocated by substring search) and the
long_sentences pass (positions re-derived by accumulating segment lengths). -/
theorem check_text_spans_valid (cfg : CheckConfig) (registry : List (List Char))
    (t : List Char) :
    ∀ w ∈ (checkText cfg registry t).1, w.start ≤ w.endPos ∧ w.endPos ≤ t.length := by
  intro w hw
  have hperm : (checkText cfg registry t).1.Perm (allIssues cfg registry t) :=
    List.perm_insertionSort issueLE (allIssues cfg registry t)
  exact allIssues_span_valid cfg registry t w (hperm.mem_iff.mp hw)

/-- C2 witness: the repeated-words issue of `"very  very"` (two separating
spaces, so the span is strictly shorter than the text). -/
theorem check_text_spans_valid_witness :
    (⟨("repeated_words"), 0, 9, ("very very").toList, ("Remove the repeated word")⟩ :
        WritingIssue) ∈
      (checkText defaultConfig CINNAMON_WORDS (("very  very").toList)).1 ∧
    (0 : Nat) ≤ 9 ∧ (9 : Nat) ≤ (("very  very").toList).length := by
  have hmem : (⟨("repeated_words"), 0, 9, ("very very").toList,
      ("Remove the repeated word")⟩ : WritingIssue) ∈
      (checkText defaultConfig CINNAMON_WORDS (("very  very").toList)).1 := by decide
  have h := check_text_spans_valid defaultConfig CINNAMON_WORDS (("very  very").toList)
    _ hmem
  exact ⟨hmem, h.1, h.2⟩
